import Mathlib

/-!
# RPC protocol engine

Shallow embedding of `Core/Inc/RPC.h` and `Core/Src/RPC.cpp`.

Conventions of the embedding.

* `uint8_t`, `uint16_t`, `uint32_t` and `size_t` values are natural numbers; a
  reduction `% 2 ^ w` is written wherever the C++ code truncates.  A byte buffer
  (`uint8_t *`) is a `List Nat` of values below 256.
* A `const char *` is the list of the bytes found at the pointer; the string it
  denotes is the part before the first NUL (`cstr`).
* Both wire structures are `#pragma pack(1)`; multi-byte fields are stored
  little-endian (the layout of the target, and the one the wire format fixes).
  `sizeof(RPC_Packet) = 5` and `offsetof(Message, arguments) = 38`.
* The class `RPC` becomes the record `RPC`; every member function takes the
  record and returns the new one.  The calls that leave the engine
  (`SendPacket`, a response callback, a registered handler) are recorded in the
  trace fields `sent`, `callbackCalls` and `handlerCalls`.
* `pvPortMalloc` returns memory with arbitrary content: the functions that
  allocate take that content as the parameter `heap` (byte `i` of the fresh
  block is `heap i % 256`).  Allocation failure is not modelled.
* A write `RxBuffer[index]` with `index ≥ 1024` is outside the array: `AddBuffer`
  returns `none` there.
-/

namespace RPC

/-! ## Checksum -/

/-- One round of the loop body of `CalculateCRC8` on a `uint8_t` accumulator. -/
def crcShift (crc : Nat) : Nat :=
  if crc &&& 0x80 ≠ 0 then ((crc <<< 1) ^^^ 0x07) % 256 else (crc <<< 1) % 256

/-- The function `RPC::CalculateCRC8`. -/
def CalculateCRC8 (crc data : Nat) : Nat :=
  crcShift^[8] ((crc ^^^ data) % 256)

/-- The loop `for (i < n) dataCRC = CalculateCRC8(dataCRC, bytes[i])` over a byte list. -/
def crcFold (seed : Nat) (bytes : List Nat) : Nat :=
  bytes.foldl CalculateCRC8 seed

/-- The loop `for (i = 0; i < n; i++) dataCRC = CalculateCRC8(dataCRC, data[i])` from
`dataCRC = 0`, with `data[i]` given by `f i`. -/
def crcRange (f : Nat → Nat) (n : Nat) : Nat :=
  (List.range n).foldl (fun crc i => CalculateCRC8 crc (f i)) 0

/-- The three statements that compute `headerCRC` from `sync1` and `length`, as written in
`SendRequest`, `SendResponse` and `CheckCRC`. -/
def headerCRC (sync1 length : Nat) : Nat :=
  let headerCRC := CalculateCRC8 0 sync1
  let headerCRC := CalculateCRC8 headerCRC (length &&& 0xFF)
  CalculateCRC8 headerCRC ((length >>> 8) &&& 0xFF)

/-- Inverse of one round of the CRC loop (used to show that the rounds lose nothing). -/
def crcUnshift (r : Nat) : Nat :=
  if r % 2 = 1 then ((r ^^^ 0x07) >>> 1) ||| 0x80 else r >>> 1

/-! ## Wire structures -/

/-- The field `RPC_Packet::length`: the `uint16_t` at offsets 1 and 2. -/
def packetLength (buffer : List Nat) : Nat :=
  buffer.getD 1 0 + 256 * buffer.getD 2 0

/-- The four bytes of a `uint32_t` in memory. -/
def toLE32 (v : Nat) : List Nat :=
  [v % 256, v / 256 % 256, v / 65536 % 256, v / 16777216 % 256]

/-- The `uint32_t` read at a pointer. -/
def fromLE32 (bytes : List Nat) : Nat :=
  bytes.getD 0 0 + 256 * bytes.getD 1 0 + 65536 * bytes.getD 2 0 + 16777216 * bytes.getD 3 0

/-- The string denoted by a `const char *`: the bytes before the first NUL. -/
def cstr (s : List Nat) : List Nat :=
  s.takeWhile (fun c => c != 0)

/-- The library function `strlen`. -/
def strlen (s : List Nat) : Nat :=
  (cstr s).length

/-- The library function `strcmp`, as the test `strcmp(a, b) == 0`. -/
def strcmpEq (a b : List Nat) : Bool :=
  cstr a == cstr b

/-- The `n` bytes written by `strncpy(dst, src, n)`: the string, cut at `n`, NUL-padded. -/
def strncpy (src : List Nat) (n : Nat) : List Nat :=
  (cstr src).take n ++ List.replicate (n - ((cstr src).take n).length) 0

/-- Content of `len` bytes of a fresh `pvPortMalloc` block, from offset `off`. -/
def heapBytes (heap : Nat → Nat) (off len : Nat) : List Nat :=
  (List.range len).map fun i => heap (off + i) % 256

/-- The enumeration `MessageType`. -/
def MSG_REQUEST : Nat := 0x01
def MSG_RESPONSE : Nat := 0x02
def MSG_STREAM : Nat := 0x03
def MSG_ERROR : Nat := 0x04

/-! ## Engine state -/

/-- The enumeration `StepRec`. -/
inductive StepRec where
  | WAIT_SYNC
  | WAIT_LEN_L
  | WAIT_LEN_H
  | WAIT_DATA
deriving DecidableEq, Repr

/-- The type `RPCFunctionPtr`: `void f(args, argsLength, response&, responseLength&)`;
the result is the new value of the two reference parameters. -/
abbrev RPCFunctionPtr := List Nat → Nat → Option (List Nat) → Nat → Option (List Nat) × Nat

/-- The struct `FunctionEntry`. -/
structure FunctionEntry where
  name : List Nat
  function : RPCFunctionPtr

instance : Inhabited FunctionEntry := ⟨⟨[], fun _ _ r n => (r, n)⟩⟩

/-- The struct `Response`. -/
structure Response where
  id : Nat
  data : List Nat
  length : Nat
  isError : Bool
deriving DecidableEq, Repr

/-- The struct `PendingRequest`; a callback is a function pointer, `none` is `nullptr`. -/
structure PendingRequest where
  id : Nat
  callback : Option Nat
deriving DecidableEq, Repr

instance : Inhabited PendingRequest := ⟨⟨0, none⟩⟩

/-- One call `SendPacket(buffer, PacketLength)`. -/
structure SentPacket where
  buffer : List Nat
  PacketLength : Nat
deriving DecidableEq, Repr

/-- One call `callback(id, data, length, success)`. -/
structure CallbackCall where
  callback : Nat
  id : Nat
  data : List Nat
  length : Nat
  success : Bool
deriving DecidableEq, Repr

/-- One call `functions[slot].function(args, argsLength, ...)`. -/
structure HandlerCall where
  slot : Nat
  args : List Nat
  argsLength : Nat
deriving DecidableEq, Repr

end RPC

/-- The data members of the class `RPC`, and the traces of its outgoing calls. -/
structure RPC where
  nextId : Nat
  functions : List RPC.FunctionEntry
  functionCount : Nat
  pendingRequests : List RPC.PendingRequest
  pendingCount : Nat
  RxBuffer : List Nat
  index : Nat
  state : RPC.StepRec
  packet_length : Nat
  packetQueue : List (List Nat)
  responseQueue : List RPC.Response
  sent : List RPC.SentPacket
  callbackCalls : List RPC.CallbackCall
  handlerCalls : List RPC.HandlerCall

namespace RPC

/-- The constructor `RPC::RPC()`.  `RxBuffer` and `functions` are not initialised by it:
their content is `rxMem` and `fnMem`. -/
def construct (rxMem : Nat → Nat) (fnMem : Nat → FunctionEntry) : RPC where
  nextId := 1
  functions := (List.range 10).map fnMem
  functionCount := 0
  pendingRequests := List.replicate 10 ⟨0, none⟩
  pendingCount := 0
  RxBuffer := (List.range 1024).map fun i => rxMem i % 256
  index := 0
  state := .WAIT_SYNC
  packet_length := 0
  packetQueue := []
  responseQueue := []
  sent := []
  callbackCalls := []
  handlerCalls := []

/-- The call `xQueueSend(queue, &item, 0)` on a queue created with 10 slots: the item is
dropped when the queue is full. -/
def xQueueSend {α : Type} (queue : List α) (item : α) : List α :=
  if queue.length < 10 then queue ++ [item] else queue

/-! ## Frame validation and the byte-stream decoder -/

/-- The function `RPC::CheckCRC`.  A read outside the list gives 0. -/
def CheckCRC (buffer : List Nat) (totalLength : Nat) : Bool :=
  if buffer.getD (totalLength - 1) 0 ≠ 0xFE then false
  else
    let length := packetLength buffer
    if headerCRC (buffer.getD 0 0) length ≠ buffer.getD 3 0 then false
    else
      let dataCRC := crcRange (fun i => buffer.getD (5 + i) 0) length
      dataCRC == buffer.getD (totalLength - 2) 0

/-- The statement `RxBuffer[index++] = data`; `none` when `index` is outside the array. -/
def store (s : RPC) (data : Nat) : Option RPC :=
  if s.index < 1024 then
    some { s with RxBuffer := s.RxBuffer.set s.index data, index := (s.index + 1) % 65536 }
  else none

/-- The completion test of `case WAIT_DATA`, after the byte has been stored. -/
def finishData (s : RPC) : RPC :=
  if s.index ≥ s.packet_length + 5 then
    if s.RxBuffer.getD (s.index - 1) 0 = 0xFE then
      if !CheckCRC s.RxBuffer s.index then s
      else
        { s with
          packetQueue := xQueueSend s.packetQueue (s.RxBuffer.take s.index)
          state := .WAIT_SYNC
          index := 0 }
    else { s with state := .WAIT_SYNC, index := 0 }
  else s

/-- The function `RPC::AddBuffer`. -/
def AddBuffer (s : RPC) (data : Nat) : Option RPC :=
  match s.state with
  | .WAIT_SYNC =>
    if data = 0xFA then
      (store { s with index := 0 } data).map fun t => { t with state := .WAIT_LEN_L }
    else some s
  | .WAIT_LEN_L =>
    (store s data).map fun t => { t with packet_length := data, state := .WAIT_LEN_H }
  | .WAIT_LEN_H =>
    (store s data).map fun t =>
      { t with packet_length := (t.packet_length ||| (data <<< 8)) % 65536, state := .WAIT_DATA }
  | .WAIT_DATA => (store s data).map finishData

/-- Feeding a byte sequence, one `AddBuffer` call per byte. -/
def feed (s : RPC) (bytes : List Nat) : Option RPC :=
  bytes.foldlM AddBuffer s

/-! ## Encoder -/

/-- The framing code shared by `SendRequest` and `SendResponse`: the buffer of
`sizeof(RPC_Packet) + messageLength + 2` bytes built around the message. -/
def packetBuffer (messageLength : Nat) (message : List Nat) : List Nat :=
  let length := messageLength % 65536
  let dataCRC := crcFold 0 message
  [0xFA, length % 256, length / 256, headerCRC 0xFA length, 0xFB] ++ message ++ [dataCRC, 0xFE]

/-- The call `SendPacket(packetBuffer, totalPacketLength)` that ends `SendRequest` and
`SendResponse`; the second parameter of `SendPacket` is a `uint16_t`. -/
def sendFrame (s : RPC) (messageLength : Nat) (message : List Nat) : RPC :=
  let totalPacketLength := 5 + messageLength + 2
  { s with sent := s.sent ++ [⟨packetBuffer messageLength message, totalPacketLength % 65536⟩] }

/-- The message written by `SendRequest` into its buffer of `messageLength` bytes. -/
def requestMessage (heap : Nat → Nat) (outId : Nat) (functionName args : List Nat) : List Nat :=
  let nameLen := strlen functionName + 1
  [MSG_REQUEST] ++ toLE32 outId ++ (strncpy functionName 31 ++ [0]) ++ [0] ++ args
    ++ heapBytes heap (5 + 38 + args.length) nameLen

/-- The function `RPC::SendRequest`; `argsLength` is the length of `args`. -/
def SendRequest (heap : Nat → Nat) (s : RPC) (functionName args : List Nat)
    (callback : Option Nat) : RPC × Bool :=
  let outId := s.nextId
  let s := { s with nextId := (s.nextId + 1) % 4294967296 }
  let s :=
    if callback.isSome ∧ s.pendingCount < 10 then
      { s with
        pendingRequests := s.pendingRequests.set s.pendingCount ⟨outId, callback⟩
        pendingCount := (s.pendingCount + 1) % 256 }
    else s
  let nameLen := strlen functionName + 1
  let messageLength := 38 + nameLen + args.length
  (sendFrame s messageLength (requestMessage heap outId functionName args), true)

/-- The message written by `SendResponse` into its buffer. -/
def responseMessage (heap : Nat → Nat) (id : Nat) (success : Bool)
    (responseData : Option (List Nat)) (responseLength : Nat) : List Nat :=
  let arguments :=
    match responseData with
    | some d =>
      if responseLength > 0 then
        d.take responseLength ++ heapBytes heap (5 + 38 + d.length) (responseLength - d.length)
      else []
    | none => heapBytes heap (5 + 38) responseLength
  [if success then MSG_RESPONSE else MSG_ERROR] ++ toLE32 id ++ heapBytes heap (5 + 5) 32 ++ [0]
    ++ arguments

/-- The function `RPC::SendResponse`. -/
def SendResponse (heap : Nat → Nat) (s : RPC) (type id : Nat) (success : Bool)
    (responseData : Option (List Nat)) (responseLength : Nat) : RPC :=
  let _ := type
  let messageLength := 38 + responseLength
  sendFrame s messageLength (responseMessage heap id success responseData responseLength)

/-! ## Registry, dispatcher and correlator -/

/-- The function `RPC::RegisterFunction`. -/
def RegisterFunction (s : RPC) (name : List Nat) (function : RPCFunctionPtr) : RPC :=
  if s.functionCount < 10 then
    { s with
      functions := s.functions.set s.functionCount ⟨name, function⟩
      functionCount := (s.functionCount + 1) % 256 }
  else s

/-- The function `RPC::CallFunction`: engine, return value, `response`, `responseLength`. -/
def CallFunction (s : RPC) (name args : List Nat) (argsLength : Nat)
    (response : Option (List Nat)) (responseLength : Nat) :
    RPC × Bool × Option (List Nat) × Nat :=
  match (List.range s.functionCount).find?
      (fun i => strcmpEq (s.functions.getD i default).name name) with
  | some i =>
    let r := (s.functions.getD i default).function args argsLength response responseLength
    ({ s with handlerCalls := s.handlerCalls ++ [⟨i, args, argsLength⟩] }, true, r.1, r.2)
  | none => (s, false, response, responseLength)

/-- The function `RPC::ProcessIncomingResponse`. -/
def ProcessIncomingResponse (s : RPC) (id : Nat) (data : List Nat) (length : Nat)
    (isError : Bool) : RPC :=
  { s with responseQueue := xQueueSend s.responseQueue ⟨id, data.take length, length, isError⟩ }

/-- The function `RPC::ProcessMessage`. -/
def ProcessMessage (heap : Nat → Nat) (s : RPC) (type id : Nat) (functionName args : List Nat)
    (argsLength : Nat) : RPC :=
  if type = MSG_REQUEST then
    let r := CallFunction s functionName args argsLength none 0
    SendResponse heap r.1 type id r.2.1 r.2.2.1 r.2.2.2
  else if type = MSG_RESPONSE then ProcessIncomingResponse s id args argsLength false
  else if type = MSG_ERROR then ProcessIncomingResponse s id args argsLength true
  else s

/-- The message fields read by `HandlePacket`. -/
structure Fields where
  type : Nat
  id : Nat
  nameField : List Nat
  separator : Nat
  arguments : List Nat
  argsLength : Nat
deriving DecidableEq, Repr

/-- The field extraction of `RPC::HandlePacket`: `payload = packet->data`,
`payloadLength = packet->length`, `argsLength = payloadLength - 38` in `size_t`. -/
def messageFields (packet : List Nat) : Fields :=
  let payload := packet.drop 5
  let payloadLength := packetLength packet
  let argsLength := (payloadLength + 4294967296 - 38) % 4294967296
  { type := payload.getD 0 0
    id := fromLE32 (payload.drop 1)
    nameField := (payload.drop 5).take 32
    separator := payload.getD 37 0
    arguments := (payload.drop 38).take argsLength
    argsLength := argsLength }

/-- The function `RPC::HandlePacket`.  `functionName` points at the name field, `args` at
offset 38 of the payload. -/
def HandlePacket (heap : Nat → Nat) (s : RPC) (packet : List Nat) : RPC :=
  let payload := packet.drop 5
  let m := messageFields packet
  if m.separator ≠ 0 then s
  else ProcessMessage heap s m.type m.id (payload.drop 5) (payload.drop 38) m.argsLength

/-- The loop `for (j = i; j < pendingCount - 1; j++) pendingRequests[j] = pendingRequests[j + 1]`. -/
def shiftDown (pending : List PendingRequest) (i pendingCount : Nat) : List PendingRequest :=
  (List.range (pendingCount - 1 - i)).foldl
    (fun p k => p.set (i + k) (p.getD (i + k + 1) default)) pending

/-- The body of the loop of `RPC::ResponseTask` for one item received from `responseQueue`. -/
def ResponseStep (s : RPC) (response : Response) : RPC :=
  match (List.range s.pendingCount).find?
      (fun i => (s.pendingRequests.getD i default).id == response.id) with
  | some i =>
    match (s.pendingRequests.getD i default).callback with
    | some cb =>
      { s with callbackCalls := s.callbackCalls ++
          [⟨cb, response.id, response.data, response.length, !response.isError⟩] }
    | none =>
      { s with
        pendingRequests := shiftDown s.pendingRequests i s.pendingCount
        pendingCount := s.pendingCount - 1 }
  | none => s

end RPC

/-! ## Concrete instances -/

namespace RPC

/-- Fresh heap memory that happens to be all zero. -/
def zeroHeap : Nat → Nat := fun _ => 0

/-- The engine right after construction, its uninitialised arrays being all zero. -/
def fresh : RPC := construct zeroHeap (fun _ => default)

/-- A handler that returns its input unchanged. -/
def echo : RPCFunctionPtr := fun args argsLength _ _ => (some (args.take argsLength), argsLength)

/-- The fresh engine after `RegisterFunction("echo", echo)`. -/
def withEcho : RPC := RegisterFunction fresh [0x65, 0x63, 0x68, 0x6F] echo

/-- A handler that returns `65491 + argsLength` zero bytes. -/
def bigHandler : RPCFunctionPtr :=
  fun _ argsLength _ _ => (some (List.replicate (65491 + argsLength) 0), 65491 + argsLength)

/-- The fresh engine after `RegisterFunction("b", bigHandler)`. -/
def withBig : RPC := RegisterFunction fresh [0x62] bigHandler

end RPC

/-! ## Reference definitions: well-formed frames -/

namespace RPC

/-- The wire format: `buffer` is a frame around a message of `M` bytes. -/
def WellFormedFrame (M : Nat) (buffer : List Nat) : Prop :=
  buffer.length = M + 7 ∧
  buffer.getD 0 0 = 0xFA ∧
  buffer.getD 1 0 = M % 256 ∧
  buffer.getD 2 0 = M / 256 ∧
  buffer.getD 3 0 = crcFold 0 (buffer.take 3) ∧
  buffer.getD 4 0 = 0xFB ∧
  buffer.getD (M + 5) 0 = crcFold 0 ((buffer.drop 5).take M) ∧
  buffer.getD (M + 6) 0 = 0xFE

instance (M : Nat) (buffer : List Nat) : Decidable (WellFormedFrame M buffer) := by
  unfold WellFormedFrame
  infer_instance

end RPC

/-! ## Reference definitions: polynomials over GF(2)

A polynomial over GF(2) is coded by the natural number whose bit `i` is the coefficient of
`x ^ i`; the generator `x ^ 8 + x ^ 2 + x + 1` is `0x107`. -/

namespace GF2

/-- Product of two polynomials: `fuel` bounds the number of coefficients of `a` read. -/
def mulAux : Nat → Nat → Nat → Nat
  | 0, _, _ => 0
  | fuel + 1, a, b => (if a % 2 = 1 then b else 0) ^^^ 2 * mulAux fuel (a / 2) b

/-- Product of two polynomials over GF(2). -/
def mul (a b : Nat) : Nat :=
  mulAux a a b

/-- Long division: remainder of `p`, of degree below `d + n`, by `g` of degree `d`. -/
def modAux (g d : Nat) : Nat → Nat → Nat
  | 0, p => p
  | n + 1, p => modAux g d n (if p.testBit (d + n) then p ^^^ (g <<< n) else p)

/-- Long division: the quotient that goes with `modAux`. -/
def divAux (g d : Nat) : Nat → Nat → Nat
  | 0, _ => 0
  | n + 1, p =>
    if p.testBit (d + n) then 2 ^ n ^^^ divAux g d n (p ^^^ (g <<< n)) else divAux g d n p

/-- The generator polynomial `x ^ 8 + x ^ 2 + x + 1` of CRC-8. -/
def poly07 : Nat := 0x107

/-- Remainder modulo `poly07` of a polynomial of degree below 16. -/
def mod07 (p : Nat) : Nat :=
  modAux poly07 8 8 p

/-- The polynomial of a byte sequence, first byte in the highest coefficients. -/
def ofBytes (bytes : List Nat) : Nat :=
  bytes.foldl (fun acc b => acc * 256 + b) 0

end GF2

/-! ## Reference definitions: runs of the engine -/

namespace RPC

/-- A sequence of `RegisterFunction` calls, one per entry, in order. -/
def registerAll (s : RPC) (entries : List FunctionEntry) : RPC :=
  entries.foldl (fun s e => RegisterFunction s e.name e.function) s

/-- One operation on the pending-request table: a call of `SendRequest`, or one iteration of
the loop of `ResponseTask` with the item received from the response queue. -/
inductive Op where
  | send (heap : Nat → Nat) (functionName args : List Nat) (callback : Option Nat)
  | deliver (response : Response)

/-- The engine after one operation. -/
def step (s : RPC) : Op → RPC
  | .send heap functionName args callback => (SendRequest heap s functionName args callback).1
  | .deliver response => ResponseStep s response

/-- The engine after a sequence of operations. -/
def run (s : RPC) (ops : List Op) : RPC :=
  ops.foldl step s

/-- Number of `SendRequest` calls in a sequence of operations. -/
def sendCount : List Op → Nat
  | [] => 0
  | .send _ _ _ _ :: ops => sendCount ops + 1
  | .deliver _ :: ops => sendCount ops

/-- Number of `SendRequest` calls with a non-null callback in a sequence of operations. -/
def callbackSendCount : List Op → Nat
  | [] => 0
  | .send _ _ _ callback :: ops =>
    if callback.isSome then callbackSendCount ops + 1 else callbackSendCount ops
  | .deliver _ :: ops => callbackSendCount ops

/-- The pending-request table is well formed: at most 10 entries in an array of 10, each
with a callback. -/
def PendingInv (s : RPC) : Prop :=
  s.pendingRequests.length = 10 ∧ s.pendingCount ≤ 10 ∧
  ∀ i, i < s.pendingCount → (s.pendingRequests.getD i default).callback ≠ none

/-- What `AddBuffer` has checked on a packet before enqueuing it: the packet holds the five
header bytes and the declared number of payload bytes, it ends with `0xFE`, and `CheckCRC`
accepts it. -/
def AcceptedPacket (p : List Nat) : Prop :=
  packetLength p + 5 ≤ p.length ∧ p.getD (p.length - 1) 0 = 0xFE ∧ CheckCRC p p.length = true

instance (p : List Nat) : Decidable (AcceptedPacket p) := by
  unfold AcceptedPacket
  infer_instance

/-- Invariant of the decoder while bytes are fed: `index` and `packet_length` agree with the
content of `RxBuffer`, and every queued packet has passed the checks of `AddBuffer`. -/
def EnqueueInv (s : RPC) : Prop :=
  s.RxBuffer.length = 1024 ∧ s.index ≤ 1024 ∧
  (s.state = .WAIT_LEN_L → s.index = 1) ∧
  (s.state = .WAIT_LEN_H →
    s.index = 2 ∧ s.packet_length = s.RxBuffer.getD 1 0 ∧ s.packet_length < 256) ∧
  (s.state = .WAIT_DATA → 3 ≤ s.index ∧ s.packet_length = packetLength s.RxBuffer) ∧
  ∀ p ∈ s.packetQueue, AcceptedPacket p

end RPC

/-! ## Reference definitions: how the decoder delimits a byte sequence -/

namespace RPC

/-- The completion test of `case WAIT_DATA` keeps the accumulated bytes `p`: their last byte
is `0xFE` and `CheckCRC` rejects them, so `AddBuffer` returns without resetting. -/
def Kept (p : List Nat) : Prop :=
  p.getD (p.length - 1) 0 = 0xFE ∧ CheckCRC p p.length = false

instance (p : List Nat) : Decidable (Kept p) := by
  unfold Kept
  infer_instance

/-- A byte that the decoder ignores in `WAIT_SYNC`: any byte other than `0xFA`. -/
def Ignored (seg : List Nat) : Prop :=
  seg.length = 1 ∧ seg.getD 0 0 ≠ 0xFA

instance (seg : List Nat) : Decidable (Ignored seg) := by
  unfold Ignored
  infer_instance

/-- A frame candidate that the decoder is still accumulating: bytes starting with `0xFA` such
that, from the completion threshold `packetLength + 5` on, the completion test has kept
every prefix. -/
def OpenCandidate (seg : List Nat) : Prop :=
  seg.getD 0 0 = 0xFA ∧
  ∀ k, k ≤ seg.length → packetLength seg + 5 ≤ k → Kept (seg.take k)

instance (seg : List Nat) : Decidable (OpenCandidate seg) := by
  unfold OpenCandidate
  infer_instance

/-- A frame candidate that the decoder has finished with: it holds at least
`packetLength + 5` bytes, the completion test has kept every proper prefix from that
threshold on, and it does not keep the whole. -/
def ClosedCandidate (seg : List Nat) : Prop :=
  seg.getD 0 0 = 0xFA ∧ packetLength seg + 5 ≤ seg.length ∧
  (∀ k, k < seg.length → packetLength seg + 5 ≤ k → Kept (seg.take k)) ∧ ¬ Kept seg

instance (seg : List Nat) : Decidable (ClosedCandidate seg) := by
  unfold ClosedCandidate
  infer_instance

/-- The byte sequence made of the segments `segs` followed by `tail` is delimited the way
the decoder delimits it: each segment is an ignored byte or a finished candidate of at most
1024 bytes, and `tail` is empty or an unfinished candidate of at most 1024 bytes. -/
def Delimited (segs : List (List Nat)) (tail : List Nat) : Prop :=
  (∀ seg ∈ segs, Ignored seg ∨ (ClosedCandidate seg ∧ seg.length ≤ 1024)) ∧
  (tail = [] ∨ OpenCandidate tail) ∧ tail.length ≤ 1024

instance (segs : List (List Nat)) (tail : List Nat) : Decidable (Delimited segs tail) := by
  unfold Delimited
  infer_instance

end RPC

/-! # Theorems -/

set_option maxRecDepth 100000

/-! ## Checksum: auxiliary facts -/

namespace RPC

theorem crcUnshift_iterate : ∀ v < 256, crcUnshift^[8] (crcShift^[8] v) = v := by decide

theorem crcShift_iterate_lt : ∀ v < 256, crcShift^[8] v < 256 := by decide

theorem CalculateCRC8_lt (crc data : Nat) : CalculateCRC8 crc data < 256 :=
  crcShift_iterate_lt _ (Nat.mod_lt _ (by norm_num))

theorem xor_byte_lt {a b : Nat} (ha : a < 256) (hb : b < 256) : a ^^^ b < 256 :=
  Nat.xor_lt_two_pow (n := 8) ha hb

theorem crcShift_iterate_inj {a b : Nat} (ha : a < 256) (hb : b < 256)
    (h : crcShift^[8] a = crcShift^[8] b) : a = b := by
  rw [← crcUnshift_iterate a ha, ← crcUnshift_iterate b hb, h]

theorem CalculateCRC8_inj_crc {c c' d : Nat} (hc : c < 256) (hc' : c' < 256) (hd : d < 256)
    (h : CalculateCRC8 c d = CalculateCRC8 c' d) : c = c' := by
  unfold CalculateCRC8 at h
  rw [Nat.mod_eq_of_lt (xor_byte_lt hc hd), Nat.mod_eq_of_lt (xor_byte_lt hc' hd)] at h
  exact Nat.xor_left_injective (crcShift_iterate_inj (xor_byte_lt hc hd) (xor_byte_lt hc' hd) h)

theorem CalculateCRC8_inj_data {c d d' : Nat} (hc : c < 256) (hd : d < 256) (hd' : d' < 256)
    (h : CalculateCRC8 c d = CalculateCRC8 c d') : d = d' := by
  unfold CalculateCRC8 at h
  rw [Nat.mod_eq_of_lt (xor_byte_lt hc hd), Nat.mod_eq_of_lt (xor_byte_lt hc hd')] at h
  exact Nat.xor_right_injective (crcShift_iterate_inj (xor_byte_lt hc hd) (xor_byte_lt hc hd') h)

theorem crcRange_succ (f : Nat → Nat) (n : Nat) :
    crcRange f (n + 1) = CalculateCRC8 (crcRange f n) (f n) := by
  simp [crcRange, List.range_succ, List.foldl_append]

theorem crcRange_lt (f : Nat → Nat) (n : Nat) : crcRange f n < 256 := by
  cases n with
  | zero => simp [crcRange]
  | succ n => rw [crcRange_succ]; exact CalculateCRC8_lt _ _

theorem crcRange_congr {f g : Nat → Nat} {n : Nat} (h : ∀ i < n, f i = g i) :
    crcRange f n = crcRange g n := by
  induction n with
  | zero => rfl
  | succ n ih =>
    rw [crcRange_succ, crcRange_succ, ih (fun i hi => h i (Nat.lt_succ_of_lt hi)),
      h n (Nat.lt_succ_self n)]

/-- Two byte sequences that differ in exactly one position have different CRCs. -/
theorem crcRange_ne_of_one_diff {f g : Nat → Nat} {n k : Nat} (hk : k < n)
    (hf : ∀ i < n, f i < 256) (hg : ∀ i < n, g i < 256)
    (hne : f k ≠ g k) (heq : ∀ i < n, i ≠ k → f i = g i) :
    crcRange f n ≠ crcRange g n := by
  induction n with
  | zero => omega
  | succ n ih =>
    rw [crcRange_succ, crcRange_succ]
    rcases Nat.lt_or_ge k n with hkn | hkn
    · have h1 := ih hkn (fun i hi => hf i (Nat.lt_succ_of_lt hi))
        (fun i hi => hg i (Nat.lt_succ_of_lt hi))
        (fun i hi hik => heq i (Nat.lt_succ_of_lt hi) hik)
      have h2 : f n = g n := heq n (Nat.lt_succ_self n) (by omega)
      rw [h2]
      intro h
      exact h1 (CalculateCRC8_inj_crc (crcRange_lt _ _) (crcRange_lt _ _)
        (hg n (Nat.lt_succ_self n)) h)
    · have hkn' : k = n := by omega
      subst hkn'
      have h1 : crcRange f k = crcRange g k :=
        crcRange_congr (fun i hi => heq i (Nat.lt_succ_of_lt hi) (by omega))
      rw [h1]
      intro h
      exact hne (CalculateCRC8_inj_data (crcRange_lt _ _) (hf k hk) (hg k hk) h)

end RPC

/-! ## Frame validation -/

namespace RPC

theorem getD_set (l : List Nat) (i k a d : Nat) :
    (l.set i a).getD k d = if i = k ∧ i < l.length then a else l.getD k d := by
  simp only [List.getD_eq_getElem?_getD, List.getElem?_set]
  by_cases h : i = k
  · subst h
    by_cases h2 : i < l.length
    · simp [h2]
    · simp [h2, List.getElem?_eq_none (Nat.le_of_not_lt h2)]
  · simp [h]

theorem getD_lt_of_forall {l : List Nat} (h : ∀ b ∈ l, b < 256) (k : Nat) : l.getD k 0 < 256 := by
  rw [List.getD_eq_getElem?_getD]
  rcases Nat.lt_or_ge k l.length with hk | hk
  · rw [List.getElem?_eq_getElem hk]
    exact h _ (List.getElem_mem hk)
  · rw [List.getElem?_eq_none hk]
    simp

theorem and_0xFF (x : Nat) : x &&& 0xFF = x % 256 :=
  Nat.and_pow_two_sub_one_eq_mod x 8

theorem length_low {b1 b2 : Nat} (h1 : b1 < 256) : (b1 + 256 * b2) &&& 0xFF = b1 := by
  rw [and_0xFF]; omega

theorem length_high {b1 b2 : Nat} (h1 : b1 < 256) (h2 : b2 < 256) :
    ((b1 + 256 * b2) >>> 8) &&& 0xFF = b2 := by
  rw [and_0xFF, Nat.shiftRight_eq_div_pow]; omega

theorem headerCRC_bytes {b0 b1 b2 : Nat} (h1 : b1 < 256) (h2 : b2 < 256) :
    headerCRC b0 (b1 + 256 * b2) = CalculateCRC8 (CalculateCRC8 (CalculateCRC8 0 b0) b1) b2 := by
  simp only [headerCRC, length_low h1, length_high h1 h2]

theorem CheckCRC_eq_true_iff (buffer : List Nat) (n : Nat) :
    CheckCRC buffer n = true ↔
      buffer.getD (n - 1) 0 = 0xFE ∧
      headerCRC (buffer.getD 0 0) (packetLength buffer) = buffer.getD 3 0 ∧
      crcRange (fun i => buffer.getD (5 + i) 0) (packetLength buffer) = buffer.getD (n - 2) 0 := by
  unfold CheckCRC
  by_cases h1 : buffer.getD (n - 1) 0 = 0xFE
  · by_cases h2 : headerCRC (buffer.getD 0 0) (packetLength buffer) = buffer.getD 3 0
    · simp [h1, h2]
    · simp [h1, h2]
  · simp [h1]

theorem flip_ne (x j : Nat) : x ^^^ 2 ^ j ≠ x := by
  intro h
  have h2 : (x ^^^ 2 ^ j).testBit j = x.testBit j := by rw [h]
  rw [Nat.testBit_xor, Nat.testBit_two_pow_self] at h2
  cases hx : x.testBit j <;> simp [hx] at h2

theorem flip_lt {x j : Nat} (hx : x < 256) (hj : j < 8) : x ^^^ 2 ^ j < 256 :=
  Nat.xor_lt_two_pow (n := 8) hx
    (Nat.pow_lt_pow_right (by norm_num) hj)

/-- C5 (single-bit error detection): on a buffer of bytes of declared payload length `L` and
total length `L + 7` that `CheckCRC` accepts, flipping bit `j` of a byte at offset 0, 1, 2 or
at a payload offset `5 .. L + 4` gives a buffer that `CheckCRC`, called with the same total
length, rejects. -/
theorem CheckCRC_rejects_single_bit_flip (buffer : List Nat) (L i j : Nat)
    (hbytes : ∀ b ∈ buffer, b < 256)
    (hlen : buffer.length = L + 7)
    (hL : packetLength buffer = L)
    (hok : CheckCRC buffer (L + 7) = true)
    (hi : i < 3 ∨ (5 ≤ i ∧ i < L + 5))
    (hj : j < 8) :
    CheckCRC (buffer.set i (buffer.getD i 0 ^^^ 2 ^ j)) (L + 7) = false := by
  rw [CheckCRC_eq_true_iff] at hok
  obtain ⟨_, hhdr, hdata⟩ := hok
  have hB : ∀ k, buffer.getD k 0 < 256 := getD_lt_of_forall hbytes
  have hx : buffer.getD i 0 ^^^ 2 ^ j < 256 := flip_lt (hB i) hj
  have hne : buffer.getD i 0 ^^^ 2 ^ j ≠ buffer.getD i 0 := flip_ne _ _
  have hil : i < buffer.length := by omega
  have hget : ∀ k, (buffer.set i (buffer.getD i 0 ^^^ 2 ^ j)).getD k 0 =
      if i = k then buffer.getD i 0 ^^^ 2 ^ j else buffer.getD k 0 := by
    intro k
    rw [getD_set]
    simp [hil]
  have hB' : ∀ k, (buffer.set i (buffer.getD i 0 ^^^ 2 ^ j)).getD k 0 < 256 := by
    intro k
    rw [hget]
    split
    · exact hx
    · exact hB k
  rw [← Bool.not_eq_true, CheckCRC_eq_true_iff]
  rintro ⟨_, hhdr', hdata'⟩
  rcases hi with hi | ⟨hi5, hiL⟩
  · -- the flipped byte is covered by the header checksum
    have h3 : (buffer.set i (buffer.getD i 0 ^^^ 2 ^ j)).getD 3 0 = buffer.getD 3 0 := by
      rw [hget]; simp; omega
    rw [h3, ← hhdr] at hhdr'
    unfold packetLength at hhdr'
    rw [headerCRC_bytes (hB' 1) (hB' 2), headerCRC_bytes (hB 1) (hB 2)] at hhdr'
    have h0 := hget 0
    have h1 := hget 1
    have h2 := hget 2
    have hb0 := hB' 0
    have hb1 := hB' 1
    have hb2 := hB' 2
    generalize (buffer.set i (buffer.getD i 0 ^^^ 2 ^ j)).getD 0 0 = a0 at h0 hb0 hhdr'
    generalize (buffer.set i (buffer.getD i 0 ^^^ 2 ^ j)).getD 1 0 = a1 at h1 hb1 hhdr'
    generalize (buffer.set i (buffer.getD i 0 ^^^ 2 ^ j)).getD 2 0 = a2 at h2 hb2 hhdr'
    rcases (by omega : i = 0 ∨ i = 1 ∨ i = 2) with rfl | rfl | rfl
    · simp only [if_true] at h0
      simp only [show ¬ (0 = 1) by omega, show ¬ (0 = 2) by omega, if_false] at h1 h2
      subst h1 h2
      have e1 := CalculateCRC8_inj_crc (CalculateCRC8_lt _ _) (CalculateCRC8_lt _ _) (hB 2) hhdr'
      have e2 := CalculateCRC8_inj_crc (CalculateCRC8_lt _ _) (CalculateCRC8_lt _ _) (hB 1) e1
      have e3 := CalculateCRC8_inj_data (by norm_num) hb0 (hB 0) e2
      exact hne (h0 ▸ e3)
    · simp only [if_true] at h1
      simp only [show ¬ (1 = 0) by omega, show ¬ (1 = 2) by omega, if_false] at h0 h2
      subst h0 h2
      have e1 := CalculateCRC8_inj_crc (CalculateCRC8_lt _ _) (CalculateCRC8_lt _ _) (hB 2) hhdr'
      have e2 := CalculateCRC8_inj_data (CalculateCRC8_lt _ _) hb1 (hB 1) e1
      exact hne (h1 ▸ e2)
    · simp only [if_true] at h2
      simp only [show ¬ (2 = 0) by omega, show ¬ (2 = 1) by omega, if_false] at h0 h1
      subst h0 h1
      have e1 := CalculateCRC8_inj_data (CalculateCRC8_lt _ _) hb2 (hB 2) hhdr'
      exact hne (h2 ▸ e1)
  · -- the flipped byte is a payload byte
    have hL' : packetLength (buffer.set i (buffer.getD i 0 ^^^ 2 ^ j)) = L := by
      unfold packetLength at hL ⊢
      rw [hget, hget]
      simp only [show ¬ (i = 1) by omega, show ¬ (i = 2) by omega, if_false]
      exact hL
    have hc : (buffer.set i (buffer.getD i 0 ^^^ 2 ^ j)).getD (L + 7 - 2) 0 =
        buffer.getD (L + 7 - 2) 0 := by
      rw [hget]; simp; omega
    rw [hL', hc, ← hdata, hL] at hdata'
    refine crcRange_ne_of_one_diff (k := i - 5) (by omega) (fun k _ => hB' _) (fun k _ => hB _)
      ?_ ?_ hdata'
    · show (buffer.set i (buffer.getD i 0 ^^^ 2 ^ j)).getD (5 + (i - 5)) 0 ≠
        buffer.getD (5 + (i - 5)) 0
      rw [show 5 + (i - 5) = i by omega, hget]
      simpa using hne
    · intro k _ hk
      show (buffer.set i (buffer.getD i 0 ^^^ 2 ^ j)).getD (5 + k) 0 = buffer.getD (5 + k) 0
      rw [hget]
      simp; omega

/-- Witness for C5: the frame of the two-byte payload `0x31 0x32`, with bit 0 of the first
payload byte flipped. -/
theorem CheckCRC_rejects_single_bit_flip_witness :
    CheckCRC [0xFA, 2, 0, 0xC1, 0xFB, 0x31, 0x32, 0x72, 0xFE] (2 + 7) = true ∧
    CheckCRC ([0xFA, 2, 0, 0xC1, 0xFB, 0x31, 0x32, 0x72, 0xFE].set 5
      ([0xFA, 2, 0, 0xC1, 0xFB, 0x31, 0x32, 0x72, 0xFE].getD 5 0 ^^^ 2 ^ 0)) (2 + 7) = false :=
  ⟨by decide,
    CheckCRC_rejects_single_bit_flip [0xFA, 2, 0, 0xC1, 0xFB, 0x31, 0x32, 0x72, 0xFE] 2 5 0
      (by decide) (by decide) (by decide) (by decide) (by decide) (by decide)⟩

end RPC

/-! ## Polynomials over GF(2): auxiliary facts -/

namespace GF2

theorem two_mul_xor (x y : Nat) : 2 * (x ^^^ y) = 2 * x ^^^ 2 * y := by
  have h1 : (2 * x ^^^ 2 * y) % 2 = 0 := by rw [Nat.xor_mod_two_eq]; omega
  have h2 : (2 * x ^^^ 2 * y) / 2 = x ^^^ y := by
    rw [Nat.xor_div_two]; simp
  omega

theorem pow_mul_xor (k x y : Nat) : 2 ^ k * (x ^^^ y) = 2 ^ k * x ^^^ 2 ^ k * y := by
  induction k with
  | zero => simp
  | succ k ih => rw [pow_succ, mul_comm (2 ^ k) 2, mul_assoc, ih, two_mul_xor, mul_assoc, mul_assoc]

theorem mulAux_zero (n b : Nat) : mulAux n 0 b = 0 := by
  induction n with
  | zero => rfl
  | succ n ih => simp [mulAux, ih]

theorem mulAux_add (n k a b : Nat) (ha : a < 2 ^ n) : mulAux (n + k) a b = mulAux n a b := by
  induction n generalizing a with
  | zero =>
    have : a = 0 := by simpa using ha
    subst this
    simp [mulAux_zero, mulAux]
  | succ n ih =>
    have h2 : a / 2 < 2 ^ n := by
      rw [Nat.div_lt_iff_lt_mul (by norm_num)]; rw [pow_succ] at ha; exact ha
    rw [show n + 1 + k = (n + k) + 1 by omega]
    simp only [mulAux]
    rw [ih _ h2]

theorem mul_eq_mulAux {n a : Nat} (b : Nat) (ha : a < 2 ^ n) : mul a b = mulAux n a b := by
  unfold mul
  rcases Nat.le_total n a with h | h
  · obtain ⟨k, rfl⟩ := Nat.exists_eq_add_of_le h
    exact mulAux_add n k _ b ha
  · obtain ⟨k, hk⟩ := Nat.exists_eq_add_of_le h
    rw [hk, mulAux_add a k a b (Nat.lt_two_pow a)]

theorem xor_swap (b x y : Nat) : b ^^^ (x ^^^ y) = x ^^^ (b ^^^ y) := by
  rw [← Nat.xor_assoc, Nat.xor_comm b x, Nat.xor_assoc]

theorem xor_twice (b x y : Nat) : x ^^^ y = (b ^^^ x) ^^^ (b ^^^ y) := by
  rw [Nat.xor_assoc, xor_swap x b y, ← Nat.xor_assoc b b, Nat.xor_self, Nat.zero_xor]

theorem mulAux_xor (n a c b : Nat) (ha : a < 2 ^ n) (hc : c < 2 ^ n) :
    mulAux n (a ^^^ c) b = mulAux n a b ^^^ mulAux n c b := by
  induction n generalizing a c with
  | zero => simp [mulAux]
  | succ n ih =>
    have h2 : ∀ x, x < 2 ^ (n + 1) → x / 2 < 2 ^ n := by
      intro x hx
      rw [Nat.div_lt_iff_lt_mul (by norm_num)]; rw [pow_succ] at hx; exact hx
    simp only [mulAux]
    rw [Nat.xor_div_two, ih _ _ (h2 a ha) (h2 c hc), two_mul_xor, Nat.xor_mod_two_eq]
    rcases Nat.mod_two_eq_zero_or_one a with h | h <;>
      rcases Nat.mod_two_eq_zero_or_one c with h' | h' <;>
      simp [h, h', Nat.add_mod]
    · exact xor_swap _ _ _
    · exact (Nat.xor_assoc _ _ _).symm
    · exact xor_twice _ _ _

theorem mul_xor (a c b : Nat) : mul (a ^^^ c) b = mul a b ^^^ mul c b := by
  have ha : a < 2 ^ (a + c) := lt_of_lt_of_le (Nat.lt_two_pow a)
    (Nat.pow_le_pow_right (by norm_num) (Nat.le_add_right a c))
  have hc : c < 2 ^ (a + c) := lt_of_lt_of_le (Nat.lt_two_pow c)
    (Nat.pow_le_pow_right (by norm_num) (Nat.le_add_left c a))
  rw [mul_eq_mulAux b (Nat.xor_lt_two_pow ha hc), mul_eq_mulAux b ha, mul_eq_mulAux b hc,
    mulAux_xor _ _ _ _ ha hc]

theorem mul_two_mul (a b : Nat) : mul (2 * a) b = 2 * mul a b := by
  have ha : a < 2 ^ a := Nat.lt_two_pow a
  have h2 : 2 * a < 2 ^ (a + 1) := by rw [pow_succ]; omega
  rw [mul_eq_mulAux b h2, mul_eq_mulAux b ha]
  simp [mulAux]

theorem mul_pow_mul (k a b : Nat) : mul (2 ^ k * a) b = 2 ^ k * mul a b := by
  induction k with
  | zero => simp
  | succ k ih => rw [pow_succ, mul_comm (2 ^ k) 2, mul_assoc, mul_two_mul, ih, mul_assoc]

theorem mul_add_byte (p b : Nat) (hb : b < 256) : p * 256 + b = 2 ^ 8 * p ^^^ b := by
  rw [show p * 256 + b = 2 ^ 8 * p + b by omega]
  apply Nat.eq_of_testBit_eq
  intro j
  rw [Nat.testBit_mul_pow_two_add _ hb, Nat.testBit_xor, Nat.testBit_mul_pow_two]
  by_cases hj : j < 8
  · have hj' : ¬ 8 ≤ j := by omega
    simp [hj, hj']
  · have hb' : b < 2 ^ j :=
      lt_of_lt_of_le (show b < 2 ^ 8 from hb)
        (Nat.pow_le_pow_right (by norm_num : 0 < 2) (by omega : 8 ≤ j))
    have : b.testBit j = false := Nat.testBit_lt_two_pow hb'
    have hj' : 8 ≤ j := by omega
    simp [hj, this, hj']

end GF2

/-! ## Checksum: agreement with CRC-8 -/

namespace RPC

theorem crcShift_iterate_ref : ∀ v < 256,
    crcShift^[8] v = GF2.mod07 (v * 2 ^ 8) ∧
    GF2.mul (GF2.divAux GF2.poly07 8 8 (v * 2 ^ 8)) GF2.poly07 ^^^ crcShift^[8] v = v * 2 ^ 8 := by
  decide

theorem CalculateCRC8_euclid {crc data : Nat} (hc : crc < 256) (hd : data < 256) :
    ∃ q, GF2.mul q GF2.poly07 ^^^ CalculateCRC8 crc data = (crc ^^^ data) * 2 ^ 8 := by
  refine ⟨GF2.divAux GF2.poly07 8 8 ((crc ^^^ data) * 2 ^ 8), ?_⟩
  have h := (crcShift_iterate_ref _ (xor_byte_lt hc hd)).2
  unfold CalculateCRC8
  rw [Nat.mod_eq_of_lt (xor_byte_lt hc hd)]
  exact h

theorem crcFold_euclid (bytes : List Nat) (hb : ∀ b ∈ bytes, b < 256) (r p q : Nat)
    (hr : r < 256) (hq : GF2.mul q GF2.poly07 ^^^ r = p * 2 ^ 8) :
    crcFold r bytes < 256 ∧
    ∃ q', GF2.mul q' GF2.poly07 ^^^ crcFold r bytes =
      bytes.foldl (fun acc b => acc * 256 + b) p * 2 ^ 8 := by
  induction bytes generalizing r p q with
  | nil => exact ⟨hr, q, hq⟩
  | cons b bytes ih =>
    have hb0 : b < 256 := hb b (List.mem_cons_self _ _)
    obtain ⟨q1, hq1⟩ := CalculateCRC8_euclid hr hb0
    simp only [crcFold, List.foldl_cons]
    refine ih (fun x hx => hb x (List.mem_cons_of_mem _ hx)) (CalculateCRC8 r b) (p * 256 + b)
      (2 ^ 8 * q ^^^ q1) (CalculateCRC8_lt _ _) ?_
    rw [GF2.mul_xor, GF2.mul_pow_mul, Nat.xor_assoc, hq1, GF2.mul_add_byte p b hb0,
      mul_comm (2 ^ 8 * p ^^^ b) (2 ^ 8), GF2.pow_mul_xor, mul_comm (r ^^^ b) (2 ^ 8),
      GF2.pow_mul_xor, ← Nat.xor_assoc, ← GF2.pow_mul_xor, hq, mul_comm p (2 ^ 8)]

theorem crcFold_check_value :
    crcFold 0 [0x31, 0x32, 0x33, 0x34, 0x35, 0x36, 0x37, 0x38, 0x39] = 0xF4 := by
  decide

/-- C6 (CRC-8 reference): for bytes `crc` and `data`, `CalculateCRC8 crc data` is the
remainder of the GF(2) polynomial `(crc XOR data) * x ^ 8` modulo `x ^ 8 + x ^ 2 + x + 1`:
it is the result of the long division, it has degree below 8 and it differs from the dividend
by a multiple of the generator.  Consequently folding `CalculateCRC8` from seed 0 over a byte
sequence gives the remainder of `M(x) * x ^ 8`, where `M` is the polynomial of the sequence
(first byte first, most significant bit first), that is its CRC-8 without reflection and
without final XOR; on the ASCII bytes of "123456789" the value is `0xF4`. -/
theorem CalculateCRC8_is_crc8 (crc data : Nat) (bytes : List Nat)
    (hc : crc < 256) (hd : data < 256) (hb : ∀ b ∈ bytes, b < 256) :
    (CalculateCRC8 crc data = GF2.mod07 ((crc ^^^ data) * 2 ^ 8) ∧
      CalculateCRC8 crc data < 2 ^ 8 ∧
      ∃ q, GF2.mul q GF2.poly07 ^^^ CalculateCRC8 crc data = (crc ^^^ data) * 2 ^ 8) ∧
    (crcFold 0 bytes < 2 ^ 8 ∧
      ∃ q, GF2.mul q GF2.poly07 ^^^ crcFold 0 bytes = GF2.ofBytes bytes * 2 ^ 8) ∧
    crcFold 0 [0x31, 0x32, 0x33, 0x34, 0x35, 0x36, 0x37, 0x38, 0x39] = 0xF4 := by
  refine ⟨⟨?_, CalculateCRC8_lt _ _, CalculateCRC8_euclid hc hd⟩, ?_, crcFold_check_value⟩
  · have h := (crcShift_iterate_ref _ (xor_byte_lt hc hd)).1
    unfold CalculateCRC8
    rw [Nat.mod_eq_of_lt (xor_byte_lt hc hd)]
    exact h
  · exact crcFold_euclid bytes hb 0 0 0 (by norm_num) (by decide)

/-- Witness for C6: the accumulator 0, the byte `0x31` and the sequence "123". -/
theorem CalculateCRC8_is_crc8_witness :
    (CalculateCRC8 0 0x31 = GF2.mod07 ((0 ^^^ 0x31) * 2 ^ 8) ∧
      CalculateCRC8 0 0x31 < 2 ^ 8 ∧
      ∃ q, GF2.mul q GF2.poly07 ^^^ CalculateCRC8 0 0x31 = (0 ^^^ 0x31) * 2 ^ 8) ∧
    (crcFold 0 [0x31, 0x32, 0x33] < 2 ^ 8 ∧
      ∃ q, GF2.mul q GF2.poly07 ^^^ crcFold 0 [0x31, 0x32, 0x33] =
        GF2.ofBytes [0x31, 0x32, 0x33] * 2 ^ 8) ∧
    crcFold 0 [0x31, 0x32, 0x33, 0x34, 0x35, 0x36, 0x37, 0x38, 0x39] = 0xF4 :=
  CalculateCRC8_is_crc8 0 0x31 [0x31, 0x32, 0x33] (by decide) (by decide) (by simp)

end RPC

/-! ## Encoder -/

namespace RPC

theorem crcRange_getD (l : List Nat) : crcRange (fun i => l.getD i 0) l.length = crcFold 0 l := by
  induction l using List.reverseRecOn with
  | nil => rfl
  | append_singleton l a ih =>
    rw [List.length_append, List.length_singleton, crcRange_succ]
    have h : crcRange (fun i => (l ++ [a]).getD i 0) l.length = crcRange (fun i => l.getD i 0) l.length :=
      crcRange_congr (fun i hi => List.getD_append l [a] 0 i hi)
    rw [h, ih, List.getD_append_right l [a] 0 l.length (le_refl _)]
    simp [crcFold, List.foldl_append]

theorem headerCRC_eq_crcFold {M : Nat} (hM : M < 65536) :
    headerCRC 0xFA M = crcFold 0 [0xFA, M % 256, M / 256] := by
  have h1 : M &&& 0xFF = M % 256 := and_0xFF M
  have h2 : (M >>> 8) &&& 0xFF = M / 256 := by
    rw [and_0xFF, Nat.shiftRight_eq_div_pow]; omega
  simp only [headerCRC, h1, h2, crcFold, List.foldl_cons, List.foldl_nil]

theorem getD_frame_crc (pre message : List Nat) (c t : Nat) :
    (pre ++ message ++ [c, t]).getD (message.length + pre.length) 0 = c := by
  rw [List.getD_append_right _ _ _ _ (by simp; omega)]
  simp [show message.length + pre.length - (pre.length + message.length) = 0 by omega]

theorem getD_frame_end (pre message : List Nat) (c t : Nat) :
    (pre ++ message ++ [c, t]).getD (message.length + (pre.length + 1)) 0 = t := by
  rw [List.getD_append_right _ _ _ _ (by simp; omega)]
  simp [show message.length + (pre.length + 1) - (pre.length + message.length) = 1 by omega]

theorem packetBuffer_wellFormed (M : Nat) (message : List Nat) (hlen : message.length = M)
    (hM : M < 65536) : WellFormedFrame M (packetBuffer M message) := by
  have hmod : M % 65536 = M := Nat.mod_eq_of_lt hM
  subst hlen
  unfold WellFormedFrame packetBuffer
  simp only [hmod]
  refine ⟨by simp, rfl, rfl, rfl, ?_, rfl, ?_, ?_⟩
  · simpa using headerCRC_eq_crcFold hM
  · have h : (([0xFA, message.length % 256, message.length / 256,
        headerCRC 0xFA message.length, 0xFB] ++ message ++
        [crcFold 0 message, 0xFE]).drop 5).take message.length = message := by
      simp
    rw [h]
    exact getD_frame_crc _ message _ _
  · exact getD_frame_end _ message _ _

theorem take_three_of_length {l : List Nat} (h : 3 ≤ l.length) :
    l.take 3 = [l.getD 0 0, l.getD 1 0, l.getD 2 0] := by
  match l, h with
  | a :: b :: c :: t, _ => simp

theorem getD_take_drop (l : List Nat) (M i : Nat) (hi : i < M) :
    ((l.drop 5).take M).getD i 0 = l.getD (5 + i) 0 := by
  simp [List.getD_eq_getElem?_getD, List.getElem?_take, hi]

theorem CheckCRC_of_wellFormed {M : Nat} {buffer : List Nat} (hM : M < 65536)
    (h : WellFormedFrame M buffer) : CheckCRC buffer (M + 7) = true := by
  obtain ⟨hlen, h0, h1, h2, h3, _, hc, ht⟩ := h
  have hpl : packetLength buffer = M := by
    unfold packetLength; rw [h1, h2]; omega
  rw [CheckCRC_eq_true_iff, hpl]
  refine ⟨ht, ?_, ?_⟩
  · rw [h3, take_three_of_length (by omega), h0, h1, h2, headerCRC_eq_crcFold hM]
  · show crcRange (fun i => buffer.getD (5 + i) 0) M = buffer.getD (M + 5) 0
    rw [hc, ← crcRange_getD]
    have hl : ((buffer.drop 5).take M).length = M := by simp; omega
    rw [hl]
    exact crcRange_congr (fun i hi => (getD_take_drop buffer M i hi).symm)

theorem strncpy_length (src : List Nat) (n : Nat) : (strncpy src n).length = n := by
  simp [strncpy]

theorem heapBytes_length (heap : Nat → Nat) (off len : Nat) :
    (heapBytes heap off len).length = len := by
  simp [heapBytes]

theorem toLE32_length (v : Nat) : (toLE32 v).length = 4 := rfl

theorem requestMessage_length (heap : Nat → Nat) (outId : Nat) (functionName args : List Nat) :
    (requestMessage heap outId functionName args).length =
      38 + (strlen functionName + 1) + args.length := by
  simp [requestMessage, strncpy_length, heapBytes_length, toLE32_length]
  omega

theorem responseMessage_length (heap : Nat → Nat) (id : Nat) (success : Bool)
    (responseData : Option (List Nat)) (responseLength : Nat) :
    (responseMessage heap id success responseData responseLength).length =
      38 + responseLength := by
  unfold responseMessage
  cases responseData with
  | none => simp [heapBytes_length, toLE32_length]; omega
  | some d =>
    by_cases h : responseLength > 0
    · simp [h, heapBytes_length, toLE32_length]; omega
    · have : responseLength = 0 := by omega
      simp [this, heapBytes_length, toLE32_length]

theorem SendRequest_sent (heap : Nat → Nat) (s : RPC) (functionName args : List Nat)
    (callback : Option Nat) :
    (SendRequest heap s functionName args callback).1.sent = s.sent ++
      [⟨packetBuffer (38 + (strlen functionName + 1) + args.length)
          (requestMessage heap s.nextId functionName args),
        (5 + (38 + (strlen functionName + 1) + args.length) + 2) % 65536⟩] := by
  unfold SendRequest sendFrame
  by_cases h : callback.isSome ∧ s.pendingCount < 10 <;> simp [h]

theorem SendResponse_sent (heap : Nat → Nat) (s : RPC) (type id : Nat) (success : Bool)
    (responseData : Option (List Nat)) (responseLength : Nat) :
    (SendResponse heap s type id success responseData responseLength).sent = s.sent ++
      [⟨packetBuffer (38 + responseLength)
          (responseMessage heap id success responseData responseLength),
        (5 + (38 + responseLength) + 2) % 65536⟩] := rfl

/-- C7, amended (encoder output is a valid frame): for every call of `SendRequest` or
`SendResponse` whose total packet length `M + 7` fits in 16 bits, `SendPacket` is called once,
with the length `M + 7` and a buffer of `M + 7` bytes in which byte 0 is `0xFA`, bytes 1..2 are
`M` little-endian, byte 3 is the CRC-8 of bytes 0..2, byte 4 is `0xFB`, byte `M + 5` is the
CRC-8 of the `M` payload bytes at offsets `5 .. M + 4`, and the last byte is `0xFE`; `CheckCRC`
on that buffer with length `M + 7` returns true.  Here `M = 38 + (strlen name + 1) + argsLength`
for a request and `M = 38 + responseLength` for a response. -/
theorem encoder_output_is_valid_frame (heap : Nat → Nat) (s : RPC)
    (functionName args : List Nat) (callback : Option Nat)
    (type id : Nat) (success : Bool) (responseData : Option (List Nat)) (responseLength : Nat)
    (hreq : 38 + (strlen functionName + 1) + args.length + 7 < 65536)
    (hresp : 38 + responseLength + 7 < 65536) :
    (∃ buffer,
      (SendRequest heap s functionName args callback).1.sent =
        s.sent ++ [⟨buffer, 38 + (strlen functionName + 1) + args.length + 7⟩] ∧
      WellFormedFrame (38 + (strlen functionName + 1) + args.length) buffer ∧
      CheckCRC buffer (38 + (strlen functionName + 1) + args.length + 7) = true) ∧
    (∃ buffer,
      (SendResponse heap s type id success responseData responseLength).sent =
        s.sent ++ [⟨buffer, 38 + responseLength + 7⟩] ∧
      WellFormedFrame (38 + responseLength) buffer ∧
      CheckCRC buffer (38 + responseLength + 7) = true) := by
  constructor
  · have hw := packetBuffer_wellFormed _ _ (requestMessage_length heap s.nextId functionName args)
      (by omega)
    refine ⟨_, ?_, hw, CheckCRC_of_wellFormed (by omega) hw⟩
    rw [SendRequest_sent]
    congr 3
    omega
  · have hw := packetBuffer_wellFormed _ _
      (responseMessage_length heap id success responseData responseLength) (by omega)
    refine ⟨_, ?_, hw, CheckCRC_of_wellFormed (by omega) hw⟩
    rw [SendResponse_sent]
    congr 3
    omega

/-- Witness for C7: the request `f(1, 2)` and a response carrying two bytes. -/
theorem encoder_output_is_valid_frame_witness :
    (38 + (strlen [0x66] + 1) + [1, 2].length + 7 < 65536 ∧ 38 + 2 + 7 < 65536) ∧
    (∃ buffer,
      (SendRequest zeroHeap fresh [0x66] [1, 2] none).1.sent =
        fresh.sent ++ [⟨buffer, 38 + (strlen [0x66] + 1) + [1, 2].length + 7⟩] ∧
      WellFormedFrame (38 + (strlen [0x66] + 1) + [1, 2].length) buffer ∧
      CheckCRC buffer (38 + (strlen [0x66] + 1) + [1, 2].length + 7) = true) ∧
    (∃ buffer,
      (SendResponse zeroHeap fresh 1 5 true (some [1, 2]) 2).sent =
        fresh.sent ++ [⟨buffer, 38 + 2 + 7⟩] ∧
      WellFormedFrame (38 + 2) buffer ∧
      CheckCRC buffer (38 + 2 + 7) = true) :=
  ⟨⟨by decide, by decide⟩,
    encoder_output_is_valid_frame zeroHeap fresh [0x66] [1, 2] none 1 5 true (some [1, 2]) 2
      (by decide) (by decide)⟩

theorem SendRequest_PacketLength (heap : Nat → Nat) (s : RPC) (functionName args : List Nat)
    (callback : Option Nat) (n : Nat) (hn : args.length = n) :
    (SendRequest heap s functionName args callback).1.sent.map SentPacket.PacketLength =
      s.sent.map SentPacket.PacketLength ++
        [(5 + (38 + (strlen functionName + 1) + n) + 2) % 65536] := by
  rw [SendRequest_sent, hn]
  simp

/-- Counterexample for C7 as stated: the request with the empty name and 65490 argument bytes
has message length `M = 65529`, which fits in 16 bits, but `SendPacket` receives the length
`(M + 7) mod 65536 = 0` instead of `M + 7`. -/
theorem SendRequest_PacketLength_truncated :
    38 + (strlen [] + 1) + (List.replicate 65490 0).length = 65529 ∧
    (SendRequest zeroHeap fresh [] (List.replicate 65490 0) none).1.sent.map
      SentPacket.PacketLength = [0] := by
  constructor
  · rw [List.length_replicate]
    rfl
  · rw [SendRequest_PacketLength zeroHeap fresh [] (List.replicate 65490 0) none 65490
      (List.length_replicate _ _)]
    rfl

theorem fromLE32_toLE32 {v : Nat} (hv : v < 4294967296) : fromLE32 (toLE32 v) = v := by
  simp only [fromLE32, toLE32, List.getD_cons_zero, List.getD_cons_succ]
  omega

/-- C1 (round trip), evaluation at a failing input: the frame that `SendRequest` builds for
the call `f(1, 2)` on a fresh engine decodes, with the field extraction of `HandlePacket`, to
type Request, id 1 and the name `f`, but to four argument bytes `1, 2, 0, 0` instead of the
two bytes `1, 2`: the payload length written by `SendRequest` counts `strlen(name) + 1` bytes
more than the fixed header and the arguments. -/
theorem SendRequest_roundtrip_args_differ :
    (SendRequest zeroHeap fresh [0x66] [1, 2] none).1.sent.map
        (fun p => messageFields p.buffer) =
      [{ type := 1, id := 1,
         nameField := 0x66 :: List.replicate 31 0,
         separator := 0,
         arguments := [1, 2, 0, 0],
         argsLength := 4 }] := by
  decide

theorem packetLength_packetBuffer (M : Nat) (message : List Nat) :
    packetLength (packetBuffer M message) = M % 65536 := by
  simp only [packetLength, packetBuffer, List.cons_append, List.getD_cons_succ,
    List.getD_cons_zero]
  omega

/-- The defect behind C1, for every call: the argument length that `HandlePacket` computes
from a frame built by `SendRequest` exceeds the number of argument bytes sent by
`strlen(functionName) + 1`. -/
theorem SendRequest_decoded_argsLength (heap : Nat → Nat) (s : RPC)
    (functionName args : List Nat) (callback : Option Nat)
    (hM : 38 + (strlen functionName + 1) + args.length < 65536) :
    (SendRequest heap s functionName args callback).1.sent.map
        (fun p => (messageFields p.buffer).argsLength) =
      s.sent.map (fun p => (messageFields p.buffer).argsLength) ++
        [args.length + (strlen functionName + 1)] := by
  rw [SendRequest_sent]
  simp only [List.map_append, List.map_cons, List.map_nil, messageFields,
    packetLength_packetBuffer]
  have h : ((38 + (strlen functionName + 1) + args.length) % 65536 + 4294967296 - 38)
      % 4294967296 = args.length + (strlen functionName + 1) := by omega
  rw [h]

/-! ## Dispatcher -/

theorem CallFunction_unknown (s : RPC) (name args : List Nat) (argsLength : Nat)
    (response : Option (List Nat)) (responseLength : Nat)
    (hname : ∀ i < s.functionCount, strcmpEq (s.functions.getD i default).name name = false) :
    CallFunction s name args argsLength response responseLength =
      (s, false, response, responseLength) := by
  unfold CallFunction
  have h : (List.range s.functionCount).find?
      (fun i => strcmpEq (s.functions.getD i default).name name) = none := by
    rw [List.find?_eq_none]
    intro i hi
    rw [List.mem_range] at hi
    rw [hname i hi]
    exact Bool.false_ne_true
  rw [h]

/-- C10 (unknown function yields an Error reply): when `ProcessMessage` receives a Request
`(id, name, args)` whose name equals the name of no registered function, it calls `SendPacket`
exactly once, with a frame of 45 bytes whose message type byte is Error (4), whose id field is
the request id and whose declared payload length is 38 (the fixed message header, no argument
bytes); no handler is invoked. -/
theorem ProcessMessage_unknown_function (heap : Nat → Nat) (s : RPC) (id : Nat)
    (functionName args : List Nat) (argsLength : Nat)
    (hid : id < 4294967296)
    (hname : ∀ i < s.functionCount,
      strcmpEq (s.functions.getD i default).name functionName = false) :
    ∃ buffer,
      (ProcessMessage heap s MSG_REQUEST id functionName args argsLength).sent =
        s.sent ++ [⟨buffer, 45⟩] ∧
      buffer.length = 45 ∧
      (messageFields buffer).type = MSG_ERROR ∧
      (messageFields buffer).id = id ∧
      packetLength buffer = 38 ∧
      (messageFields buffer).argsLength = 0 ∧
      (ProcessMessage heap s MSG_REQUEST id functionName args argsLength).handlerCalls =
        s.handlerCalls := by
  have hp : ProcessMessage heap s MSG_REQUEST id functionName args argsLength =
      SendResponse heap s MSG_REQUEST id false none 0 := by
    simp only [ProcessMessage, if_true, CallFunction_unknown s functionName args argsLength none 0
      hname]
  rw [hp]
  refine ⟨packetBuffer (38 + 0) (responseMessage heap id false none 0), rfl, ?_, ?_, ?_, ?_, ?_,
    rfl⟩
  · simp [packetBuffer, responseMessage_length]
  · simp [messageFields, packetBuffer, responseMessage]
  · have h := fromLE32_toLE32 hid
    simp only [fromLE32, toLE32, List.getD_cons_zero, List.getD_cons_succ] at h
    simp only [messageFields, packetBuffer, responseMessage, toLE32, fromLE32, List.cons_append,
      List.nil_append, List.drop_succ_cons, List.drop_zero, List.getD_cons_zero,
      List.getD_cons_succ]
    exact h
  · rw [packetLength_packetBuffer]
  · simp [messageFields, packetLength_packetBuffer]

/-- Witness for C10: the engine with the single registered function `echo` receives the
request `nope()` with id 5. -/
theorem ProcessMessage_unknown_function_witness :
    withEcho.functionCount = 1 ∧
    (∀ i < withEcho.functionCount,
      strcmpEq (withEcho.functions.getD i default).name [0x6E, 0x6F, 0x70, 0x65, 0] = false) ∧
    ∃ buffer,
      (ProcessMessage zeroHeap withEcho MSG_REQUEST 5 [0x6E, 0x6F, 0x70, 0x65, 0] [] 0).sent =
        withEcho.sent ++ [⟨buffer, 45⟩] ∧
      buffer.length = 45 ∧
      (messageFields buffer).type = MSG_ERROR ∧
      (messageFields buffer).id = 5 ∧
      packetLength buffer = 38 ∧
      (messageFields buffer).argsLength = 0 ∧
      (ProcessMessage zeroHeap withEcho MSG_REQUEST 5 [0x6E, 0x6F, 0x70, 0x65, 0] [] 0).handlerCalls =
        withEcho.handlerCalls :=
  ⟨by decide, by decide,
    ProcessMessage_unknown_function zeroHeap withEcho 5 [0x6E, 0x6F, 0x70, 0x65, 0] [] 0
      (by decide) (by decide)⟩

end RPC

/-! ## Byte-stream decoder -/

namespace RPC

theorem AddBuffer_WAIT_DATA (s : RPC) (data : Nat) (hst : s.state = .WAIT_DATA) :
    AddBuffer s data = (store s data).map finishData := by
  unfold AddBuffer
  split <;> simp_all

/-- The defect behind C2, for every state: the completion test fires when the byte that
brings the count to `packet_length + 5` is stored, that is on the last payload byte of the
frame being received; unless that byte is `0xFE` the frame is dropped there. -/
theorem AddBuffer_completes_on_last_payload_byte (s : RPC) (data : Nat)
    (hst : s.state = .WAIT_DATA) (hidx : s.index + 1 = s.packet_length + 5)
    (hb : s.index < 1024) (hlen : s.index < s.RxBuffer.length) (hd : data ≠ 0xFE) :
    ∃ t, AddBuffer s data = some t ∧ t.state = .WAIT_SYNC ∧ t.index = 0 ∧
      t.packetQueue = s.packetQueue := by
  rw [AddBuffer_WAIT_DATA s data hst]
  have hmod : (s.index + 1) % 65536 = s.index + 1 := Nat.mod_eq_of_lt (by omega)
  simp only [store, hb, if_true, Option.map_some']
  refine ⟨_, rfl, ?_⟩
  unfold finishData
  simp only [hmod, Nat.add_sub_cancel]
  rw [if_pos (by omega), getD_set]
  simp [hlen, hd]

/-- The defect behind C4, for every state: when the completion test fires, the terminator is
`0xFE` and `CheckCRC` fails, `AddBuffer` only stores the byte. -/
theorem AddBuffer_checksum_failure (s : RPC) (hst : s.state = .WAIT_DATA)
    (hidx : s.index + 1 ≥ s.packet_length + 5)
    (hb : s.index < 1024) (hlen : s.index < s.RxBuffer.length)
    (hcrc : CheckCRC (s.RxBuffer.set s.index 0xFE) (s.index + 1) = false) :
    ∃ t, AddBuffer s 0xFE = some t ∧ t.state = .WAIT_DATA ∧ t.index = s.index + 1 ∧
      t.packetQueue = s.packetQueue := by
  rw [AddBuffer_WAIT_DATA s _ hst]
  have hmod : (s.index + 1) % 65536 = s.index + 1 := Nat.mod_eq_of_lt (by omega)
  simp only [store, hb, if_true, Option.map_some']
  refine ⟨_, rfl, ?_⟩
  unfold finishData
  simp only [hmod, Nat.add_sub_cancel]
  rw [if_pos (by omega), getD_set]
  simp [hlen, hcrc, hst]

/-- C2 (decoder accepts every well-formed frame), evaluation at a failing input: the frame
`FA 02 00 C1 FB 01 02 1B FE` is well formed (payload `01 02`, total size 9), but feeding its
nine bytes to the fresh decoder enqueues nothing.  The completion test fires when the count
reaches `packet_length + 5 = 7`, on the last payload byte, which is not `0xFE`: the decoder
resets there and ignores the checksum and the terminator that follow. -/
theorem AddBuffer_drops_wellFormed_frame :
    WellFormedFrame 2 [0xFA, 2, 0, 0xC1, 0xFB, 1, 2, 0x1B, 0xFE] ∧
    (feed fresh [0xFA, 2, 0, 0xC1, 0xFB, 1]).map
        (fun s => (s.state, s.index, s.packetQueue)) = some (.WAIT_DATA, 6, []) ∧
    (feed fresh [0xFA, 2, 0, 0xC1, 0xFB, 1, 2]).map
        (fun s => (s.state, s.index, s.packetQueue)) = some (.WAIT_SYNC, 0, []) ∧
    (feed fresh [0xFA, 2, 0, 0xC1, 0xFB, 1, 2, 0x1B, 0xFE]).map
        (fun s => (s.state, s.index, s.packetQueue)) = some (.WAIT_SYNC, 0, []) := by
  decide

/-- C4 (decoder reset on rejection), evaluation at a failing input: after `FA 01 00 00 FB` the
decoder is in `WAIT_DATA` with five bytes accumulated and `packet_length = 1`; the byte `0xFE`
brings the count to the threshold 6 and passes the terminator test, the header checksum is
wrong (`00` instead of `FE`), and `AddBuffer` returns from inside the `switch`: nothing is
enqueued, but the decoder stays in `WAIT_DATA` with `index = 6` instead of going back to
`WAIT_SYNC` with `index = 0`. -/
theorem AddBuffer_no_reset_on_bad_checksum :
    (feed fresh [0xFA, 1, 0, 0, 0xFB]).map
        (fun s => (s.state, s.index, s.packet_length, s.packetQueue)) =
      some (.WAIT_DATA, 5, 1, []) ∧
    headerCRC 0xFA 1 = 0xFE ∧
    (feed fresh [0xFA, 1, 0, 0, 0xFB, 0xFE]).map
        (fun s => (s.state, s.index, s.packet_length, s.packetQueue)) =
      some (.WAIT_DATA, 6, 1, []) := by
  decide

theorem store_eq_some {s t : RPC} {data : Nat} (h : store s data = some t) :
    s.index < 1024 ∧ t.index = s.index + 1 ∧ t.state = s.state ∧
      t.packet_length = s.packet_length := by
  unfold store at h
  by_cases hi : s.index < 1024
  · rw [if_pos hi] at h
    injection h with h
    subst h
    exact ⟨hi, Nat.mod_eq_of_lt (by omega), rfl, rfl⟩
  · rw [if_neg hi] at h
    exact absurd h (by simp)

theorem store_isSome {s : RPC} (data : Nat) (h : s.index < 1024) :
    (store s data).isSome = true := by
  simp [store, h]

theorem map_store_eq_some {s t : RPC} {data : Nat} {f : RPC → RPC}
    (h : (store s data).map f = some t) : ∃ u, store s data = some u ∧ t = f u := by
  cases hst : store s data with
  | none => rw [hst] at h; simp at h
  | some u =>
    rw [hst] at h
    simp only [Option.map_some'] at h
    injection h with h
    exact ⟨u, rfl, h.symm⟩

theorem feed_cons (s : RPC) (b : Nat) (bytes : List Nat) :
    feed s (b :: bytes) = (AddBuffer s b).bind fun t => feed t bytes := by
  simp [feed, List.foldlM_cons]

end RPC

/-! ## Correlator -/

namespace RPC

/-- The matched entry has a callback: `ResponseStep` calls it and leaves the table as it is. -/
theorem ResponseStep_callback (s : RPC) (response : Response) (i cb : Nat)
    (hfind : (List.range s.pendingCount).find?
      (fun i => (s.pendingRequests.getD i default).id == response.id) = some i)
    (hcb : (s.pendingRequests.getD i default).callback = some cb) :
    (ResponseStep s response).pendingRequests = s.pendingRequests ∧
    (ResponseStep s response).pendingCount = s.pendingCount ∧
    (ResponseStep s response).callbackCalls = s.callbackCalls ++
      [⟨cb, response.id, response.data, response.length, !response.isError⟩] := by
  unfold ResponseStep
  rw [hfind]
  simp only [hcb]
  simp

/-- The matched entry has no callback: `ResponseStep` removes it and calls nothing. -/
theorem ResponseStep_no_callback (s : RPC) (response : Response) (i : Nat)
    (hfind : (List.range s.pendingCount).find?
      (fun i => (s.pendingRequests.getD i default).id == response.id) = some i)
    (hcb : (s.pendingRequests.getD i default).callback = none) :
    (ResponseStep s response).pendingRequests = shiftDown s.pendingRequests i s.pendingCount ∧
    (ResponseStep s response).pendingCount = s.pendingCount - 1 ∧
    (ResponseStep s response).callbackCalls = s.callbackCalls := by
  unfold ResponseStep
  rw [hfind]
  simp only [hcb]
  simp

/-- C8 (unconditional removal on match), evaluation at a failing input: the table holds the
single entry `(id 1, callback 7)` left by `SendRequest("f", ..., callback 7)` on a fresh
engine.  The response-delivery step for a response with id 1 calls the callback and leaves
`pendingCount = 1` and the entry in slot 0: the `break` after the callback skips the removal
loop and `pendingCount--`. -/
theorem ResponseStep_keeps_entry_with_callback :
    (SendRequest zeroHeap fresh [0x66] [1, 2] (some 7)).1.pendingCount = 1 ∧
    (SendRequest zeroHeap fresh [0x66] [1, 2] (some 7)).1.pendingRequests.take 1 =
      [⟨1, some 7⟩] ∧
    (ResponseStep (SendRequest zeroHeap fresh [0x66] [1, 2] (some 7)).1
      ⟨1, [9], 1, false⟩).pendingCount = 1 ∧
    (ResponseStep (SendRequest zeroHeap fresh [0x66] [1, 2] (some 7)).1
      ⟨1, [9], 1, false⟩).pendingRequests.take 1 = [⟨1, some 7⟩] ∧
    (ResponseStep (SendRequest zeroHeap fresh [0x66] [1, 2] (some 7)).1
      ⟨1, [9], 1, false⟩).callbackCalls = [⟨7, 1, [9], 1, true⟩] := by
  decide

/-- C9 (callback delivered exactly once), evaluation at a failing input: on a fresh engine
`SendRequest("f", ..., callback 7)` is assigned id 1.  The first Response item with id 1 and
payload `09` invokes the callback once with `(1, 09, 1, true)`; the second identical item
invokes it again, because the pending entry is still in the table. -/
theorem ResponseStep_second_response_calls_again :
    (SendRequest zeroHeap fresh [0x66] [1, 2] (some 7)).1.sent.map
      (fun p => (messageFields p.buffer).id) = [1] ∧
    (ResponseStep (SendRequest zeroHeap fresh [0x66] [1, 2] (some 7)).1
      ⟨1, [9], 1, false⟩).callbackCalls = [⟨7, 1, [9], 1, true⟩] ∧
    (ResponseStep
      (ResponseStep (SendRequest zeroHeap fresh [0x66] [1, 2] (some 7)).1 ⟨1, [9], 1, false⟩)
      ⟨1, [9], 1, false⟩).callbackCalls =
        [⟨7, 1, [9], 1, true⟩, ⟨7, 1, [9], 1, true⟩] := by
  decide

end RPC

/-! ## Dispatcher: message types and replies -/

namespace RPC

/-- C18 (Stream and unknown types are a no-op): for every message handed to `ProcessMessage`
whose type is Stream (3) or any other value outside {1, 2, 4}, the engine is returned as it
was: no registered function is invoked, no frame is transmitted, nothing is offered to the
response queue, and the registry and the pending table are unchanged. -/
theorem ProcessMessage_other_types (heap : Nat → Nat) (s : RPC) (type id : Nat)
    (functionName args : List Nat) (argsLength : Nat)
    (htype : type = MSG_STREAM ∨ (type ≠ MSG_REQUEST ∧ type ≠ MSG_RESPONSE ∧ type ≠ MSG_ERROR)) :
    ProcessMessage heap s type id functionName args argsLength = s ∧
    (ProcessMessage heap s type id functionName args argsLength).handlerCalls = s.handlerCalls ∧
    (ProcessMessage heap s type id functionName args argsLength).sent = s.sent ∧
    (ProcessMessage heap s type id functionName args argsLength).responseQueue =
      s.responseQueue ∧
    (ProcessMessage heap s type id functionName args argsLength).functions = s.functions ∧
    (ProcessMessage heap s type id functionName args argsLength).functionCount =
      s.functionCount ∧
    (ProcessMessage heap s type id functionName args argsLength).pendingRequests =
      s.pendingRequests ∧
    (ProcessMessage heap s type id functionName args argsLength).pendingCount =
      s.pendingCount := by
  have h : ProcessMessage heap s type id functionName args argsLength = s := by
    have h3 : type ≠ MSG_REQUEST ∧ type ≠ MSG_RESPONSE ∧ type ≠ MSG_ERROR := by
      rcases htype with h | h
      · subst h; decide
      · exact h
    unfold ProcessMessage
    rw [if_neg h3.1, if_neg h3.2.1, if_neg h3.2.2]
  rw [h]
  simp

/-- Witness for C18: a Stream message (type 3) and a message of the unknown type 7 handed to
the engine with the registered function `echo`. -/
theorem ProcessMessage_other_types_witness :
    (ProcessMessage zeroHeap withEcho 3 5 [0x65, 0x63, 0x68, 0x6F, 0] [1, 2] 2).sent =
      withEcho.sent ∧
    (ProcessMessage zeroHeap withEcho 7 5 [0x65, 0x63, 0x68, 0x6F, 0] [1, 2] 2).handlerCalls =
      withEcho.handlerCalls :=
  ⟨(ProcessMessage_other_types zeroHeap withEcho 3 5 [0x65, 0x63, 0x68, 0x6F, 0] [1, 2] 2
      (Or.inl rfl)).2.2.1,
    (ProcessMessage_other_types zeroHeap withEcho 7 5 [0x65, 0x63, 0x68, 0x6F, 0] [1, 2] 2
      (Or.inr (by decide))).2.1⟩

/-- C15 (reply routing): for every message of type Response (2) or Error (4) with id `id`
whose `argsLength` argument bytes lie at `args`, `ProcessMessage` makes exactly one
`xQueueSend` call on the response queue, with the item `(id, copy of the argument bytes,
argsLength, isError)` where `isError` is true exactly when the type is Error; the item is
appended when the queue has a free slot.  No frame is transmitted and no registered function
is invoked. -/
theorem ProcessMessage_reply_routing (heap : Nat → Nat) (s : RPC) (type id : Nat)
    (functionName args : List Nat) (argsLength : Nat)
    (htype : type = MSG_RESPONSE ∨ type = MSG_ERROR)
    (hlen : argsLength ≤ args.length) :
    (ProcessMessage heap s type id functionName args argsLength).responseQueue =
      xQueueSend s.responseQueue
        ⟨id, args.take argsLength, argsLength, decide (type = MSG_ERROR)⟩ ∧
    (args.take argsLength).length = argsLength ∧
    (s.responseQueue.length < 10 →
      (ProcessMessage heap s type id functionName args argsLength).responseQueue =
        s.responseQueue ++ [⟨id, args.take argsLength, argsLength, decide (type = MSG_ERROR)⟩]) ∧
    (ProcessMessage heap s type id functionName args argsLength).sent = s.sent ∧
    (ProcessMessage heap s type id functionName args argsLength).handlerCalls =
      s.handlerCalls := by
  have hq : (ProcessMessage heap s type id functionName args argsLength).responseQueue =
      xQueueSend s.responseQueue
        ⟨id, args.take argsLength, argsLength, decide (type = MSG_ERROR)⟩ ∧
      (ProcessMessage heap s type id functionName args argsLength).sent = s.sent ∧
      (ProcessMessage heap s type id functionName args argsLength).handlerCalls =
        s.handlerCalls := by
    rcases htype with h | h <;> subst h <;>
      simp [ProcessMessage, ProcessIncomingResponse, MSG_REQUEST, MSG_RESPONSE, MSG_ERROR]
  refine ⟨hq.1, by simp [hlen], ?_, hq.2.1, hq.2.2⟩
  intro hfree
  rw [hq.1, xQueueSend, if_pos hfree]

/-- Witness for C15: an Error message with id 9 and the argument bytes `01 02` handed to a
fresh engine. -/
theorem ProcessMessage_reply_routing_witness :
    (MSG_ERROR = MSG_RESPONSE ∨ MSG_ERROR = MSG_ERROR) ∧ (2 ≤ [1, 2, 0x1B, 0xFE].length) ∧
    (ProcessMessage zeroHeap fresh MSG_ERROR 9 [0] [1, 2, 0x1B, 0xFE] 2).responseQueue =
      xQueueSend fresh.responseQueue
        ⟨9, [1, 2, 0x1B, 0xFE].take 2, 2, decide (MSG_ERROR = MSG_ERROR)⟩ :=
  ⟨Or.inr rfl, by decide,
    (ProcessMessage_reply_routing zeroHeap fresh MSG_ERROR 9 [0] [1, 2, 0x1B, 0xFE] 2
      (Or.inr rfl) (by decide)).1⟩

theorem cstr_take_of_nul (l : List Nat) (k : Nat) (hk : k < l.length) (h0 : l.getD k 1 = 0) :
    cstr l = cstr (l.take k) := by
  have hsplit : l = l.take k ++ l.drop k := (List.take_append_drop k l).symm
  have hdrop : l.drop k = 0 :: l.drop (k + 1) := by
    rw [List.drop_eq_getElem_cons hk]
    congr 1
    rw [List.getD_eq_getElem?_getD, List.getElem?_eq_getElem hk] at h0
    simpa using h0
  unfold cstr
  conv_lhs => rw [hsplit, hdrop]
  rw [List.takeWhile_append]
  split
  · rename_i hall
    simp only [List.takeWhile_cons, bne_self_eq_false, Bool.false_eq_true, if_false,
      List.append_nil]
    exact ((List.takeWhile_sublist (fun c => c != 0)).eq_of_length hall).symm
  · rfl

theorem CallFunction_congr_name (s : RPC) (n1 n2 args : List Nat) (argsLength : Nat)
    (response : Option (List Nat)) (responseLength : Nat) (h : cstr n1 = cstr n2) :
    CallFunction s n1 args argsLength response responseLength =
      CallFunction s n2 args argsLength response responseLength := by
  unfold CallFunction strcmpEq
  rw [h]

theorem ProcessMessage_congr_name (heap : Nat → Nat) (s : RPC) (type id : Nat)
    (n1 n2 args : List Nat) (argsLength : Nat) (h : cstr n1 = cstr n2) :
    ProcessMessage heap s type id n1 args argsLength =
      ProcessMessage heap s type id n2 args argsLength := by
  unfold ProcessMessage
  rw [CallFunction_congr_name s n1 n2 args argsLength none 0 h]

/-- C16 (separator guard): when the payload byte at offset 37 of a packet (packet offset 42)
is non-zero, `HandlePacket` returns the engine as it was: no function is invoked, no frame is
transmitted and nothing is offered to the response queue.  When that byte is 0,
`HandlePacket` is the call of `ProcessMessage` with type = payload byte 0, id = payload bytes
1..4, the arguments at payload offset 38 with length `payloadLength - 38`, and the function
name read from the 32-byte name field (the separator ends the string at the latest). -/
theorem HandlePacket_separator_guard (heap : Nat → Nat) (s : RPC) (packet : List Nat)
    (hlen : 43 ≤ packet.length) :
    (packet.getD 42 0 ≠ 0 →
      HandlePacket heap s packet = s ∧
      (HandlePacket heap s packet).handlerCalls = s.handlerCalls ∧
      (HandlePacket heap s packet).sent = s.sent ∧
      (HandlePacket heap s packet).responseQueue = s.responseQueue) ∧
    (packet.getD 42 0 = 0 →
      HandlePacket heap s packet =
        ProcessMessage heap s (packet.getD 5 0) (fromLE32 ((packet.drop 6).take 4))
          ((packet.drop 10).take 32) (packet.drop 43)
          ((packetLength packet + 4294967296 - 38) % 4294967296)) := by
  have hsep : (messageFields packet).separator = packet.getD 42 0 := by
    simp [messageFields, List.getD_eq_getElem?_getD]
  constructor
  · intro h
    have : HandlePacket heap s packet = s := by
      unfold HandlePacket
      simp only [hsep]
      rw [if_pos h]
    rw [this]
    simp
  · intro h
    unfold HandlePacket
    simp only [hsep]
    rw [if_neg (by simpa using h)]
    have h42 : packet[42]? = some 0 := by
      rw [List.getD_eq_getElem?_getD, List.getElem?_eq_getElem (by omega)] at h
      rw [List.getElem?_eq_getElem (by omega)]
      simpa using h
    have hname : cstr ((packet.drop 5).drop 5) = cstr ((packet.drop 10).take 32) := by
      rw [List.drop_drop]
      apply cstr_take_of_nul
      · simp; omega
      · simp [List.getD_eq_getElem?_getD, List.getElem?_drop, h42]
    rw [ProcessMessage_congr_name heap s _ _ _ _ _ _ hname]
    have hid : (messageFields packet).id = fromLE32 ((packet.drop 6).take 4) := by
      simp [messageFields, fromLE32, List.getD_eq_getElem?_getD, List.getElem?_drop,
        List.getElem?_take]
    have htype : (messageFields packet).type = packet.getD 5 0 := by
      simp [messageFields, List.getD_eq_getElem?_getD]
    rw [hid, htype]
    simp [messageFields, List.drop_drop]

/-- Witness for C16: a 45-byte packet carrying a Response message with id 9 and separator 0,
and the same packet with separator 1. -/
theorem HandlePacket_separator_guard_witness :
    (([0xFA, 38, 0, 0, 0xFB, 2, 9, 0, 0, 0] ++ List.replicate 32 0 ++ [1, 0, 0xFE]).getD 42 0
        ≠ 0 ∧
      HandlePacket zeroHeap fresh
        ([0xFA, 38, 0, 0, 0xFB, 2, 9, 0, 0, 0] ++ List.replicate 32 0 ++ [1, 0, 0xFE]) =
          fresh) ∧
    (([0xFA, 38, 0, 0, 0xFB, 2, 9, 0, 0, 0] ++ List.replicate 32 0 ++ [0, 0, 0xFE]).getD 42 0
        = 0 ∧
      (HandlePacket zeroHeap fresh
        ([0xFA, 38, 0, 0, 0xFB, 2, 9, 0, 0, 0] ++ List.replicate 32 0 ++ [0, 0, 0xFE])
        ).responseQueue = [⟨9, [], 0, false⟩]) :=
  ⟨⟨by decide,
      ((HandlePacket_separator_guard zeroHeap fresh
        ([0xFA, 38, 0, 0, 0xFB, 2, 9, 0, 0, 0] ++ List.replicate 32 0 ++ [1, 0, 0xFE])
        (by decide)).1 (by decide)).1⟩,
    ⟨by decide, by
      rw [(HandlePacket_separator_guard zeroHeap fresh
        ([0xFA, 38, 0, 0, 0xFB, 2, 9, 0, 0, 0] ++ List.replicate 32 0 ++ [0, 0, 0xFE])
        (by decide)).2 (by decide)]
      decide⟩⟩

end RPC

/-! ## Registry -/

namespace RPC

theorem CallFunction_found (s : RPC) (name args : List Nat) (argsLength : Nat)
    (response : Option (List Nat)) (responseLength : Nat) (i : Nat)
    (hfind : (List.range s.functionCount).find?
      (fun i => strcmpEq (s.functions.getD i default).name name) = some i) :
    CallFunction s name args argsLength response responseLength =
      ({ s with handlerCalls := s.handlerCalls ++ [⟨i, args, argsLength⟩] }, true,
        ((s.functions.getD i default).function args argsLength response responseLength).1,
        ((s.functions.getD i default).function args argsLength response responseLength).2) := by
  unfold CallFunction
  rw [hfind]

/-- C14 (registry lookup): `CallFunction` returns true if and only if the name of some entry
among the `functionCount` registered ones compares equal to `name`.  When it returns true it
invokes exactly one handler, that of the first such entry in registration order, once, with
the given arguments, and `response`, `responseLength` are what that handler left in them.
When it returns false it invokes no handler and leaves the engine, `response` and
`responseLength` unchanged. -/
theorem CallFunction_lookup (s : RPC) (name args : List Nat) (argsLength : Nat)
    (response : Option (List Nat)) (responseLength : Nat) :
    ((CallFunction s name args argsLength response responseLength).2.1 = true ↔
      ∃ i, i < s.functionCount ∧ strcmpEq (s.functions.getD i default).name name = true) ∧
    ((CallFunction s name args argsLength response responseLength).2.1 = true →
      ∃ i, i < s.functionCount ∧
        strcmpEq (s.functions.getD i default).name name = true ∧
        (∀ j, j < i → strcmpEq (s.functions.getD j default).name name = false) ∧
        (CallFunction s name args argsLength response responseLength).1.handlerCalls =
          s.handlerCalls ++ [⟨i, args, argsLength⟩] ∧
        (CallFunction s name args argsLength response responseLength).2.2 =
          (s.functions.getD i default).function args argsLength response responseLength) ∧
    ((CallFunction s name args argsLength response responseLength).2.1 = false →
      (CallFunction s name args argsLength response responseLength).1 = s ∧
      (CallFunction s name args argsLength response responseLength).1.handlerCalls =
        s.handlerCalls ∧
      (CallFunction s name args argsLength response responseLength).2.2 =
        (response, responseLength)) := by
  cases hfind : (List.range s.functionCount).find?
      (fun i => strcmpEq (s.functions.getD i default).name name) with
  | none =>
    have hnone : ∀ i, i < s.functionCount →
        strcmpEq (s.functions.getD i default).name name = false := by
      intro i hi
      have := List.find?_range_eq_none.mp hfind i hi
      simpa using this
    rw [CallFunction_unknown s name args argsLength response responseLength hnone]
    refine ⟨⟨fun h => absurd h (by simp), ?_⟩, fun h => absurd h (by simp), fun _ => ⟨rfl, rfl, rfl⟩⟩
    rintro ⟨i, hi, hm⟩
    rw [hnone i hi] at hm
    exact absurd hm (by simp)
  | some i =>
    rw [CallFunction_found s name args argsLength response responseLength i hfind]
    obtain ⟨hp, hmem, hfirst⟩ := List.find?_range_eq_some.mp hfind
    have hi : i < s.functionCount := List.mem_range.mp hmem
    refine ⟨⟨fun _ => ⟨i, hi, hp⟩, fun _ => rfl⟩, fun _ => ⟨i, hi, hp, ?_, rfl, rfl⟩,
      fun h => absurd h (by simp)⟩
    intro j hj
    simpa using hfirst j hj

/-- Evaluation of C14 on the registry that holds `echo` twice: the name `echo` is found in
slot 0 and its handler is called once with the arguments; the name `nope` is not found. -/
theorem CallFunction_lookup_example :
    ((CallFunction (RegisterFunction withEcho [0x65, 0x63, 0x68, 0x6F] echo)
        [0x65, 0x63, 0x68, 0x6F] [1, 2] 2 none 0).2,
      (CallFunction (RegisterFunction withEcho [0x65, 0x63, 0x68, 0x6F] echo)
        [0x65, 0x63, 0x68, 0x6F] [1, 2] 2 none 0).1.handlerCalls) =
      ((true, some [1, 2], 2), [⟨0, [1, 2], 2⟩]) ∧
    ((CallFunction (RegisterFunction withEcho [0x65, 0x63, 0x68, 0x6F] echo)
        [0x6E, 0x6F, 0x70, 0x65] [1, 2] 2 none 0).2,
      (CallFunction (RegisterFunction withEcho [0x65, 0x63, 0x68, 0x6F] echo)
        [0x6E, 0x6F, 0x70, 0x65] [1, 2] 2 none 0).1.handlerCalls) =
      ((false, none, 0), []) := by
  decide

theorem take_succ_set {α : Type} (l : List α) (k : Nat) (e : α) (hk : k < l.length) :
    (l.set k e).take (k + 1) = l.take k ++ [e] := by
  induction l generalizing k with
  | nil => simp at hk
  | cons a l ih =>
    cases k with
    | zero => simp
    | succ k =>
      simp only [List.set_cons_succ, List.take_succ_cons, List.cons_append]
      rw [ih k (by simpa using hk)]

theorem registerAll_spec (s : RPC) (entries : List FunctionEntry)
    (hlen : s.functions.length = 10) (hcount : s.functionCount ≤ 10) :
    (registerAll s entries).functions.length = 10 ∧
    (registerAll s entries).functionCount = min (s.functionCount + entries.length) 10 ∧
    (registerAll s entries).functions.take (registerAll s entries).functionCount =
      s.functions.take s.functionCount ++ entries.take (10 - s.functionCount) := by
  induction entries generalizing s with
  | nil =>
    simp [registerAll]
    omega
  | cons e entries ih =>
    have hstep : registerAll s (e :: entries) =
        registerAll (RegisterFunction s e.name e.function) entries := rfl
    rw [hstep]
    by_cases hfull : s.functionCount < 10
    · have hR : RegisterFunction s e.name e.function =
          { s with functions := s.functions.set s.functionCount ⟨e.name, e.function⟩
                   functionCount := s.functionCount + 1 } := by
        unfold RegisterFunction
        rw [if_pos hfull, Nat.mod_eq_of_lt (by omega)]
      obtain ⟨h1, h2, h3⟩ := ih (RegisterFunction s e.name e.function)
        (by rw [hR]; simp [hlen]) (by rw [hR]; simp; omega)
      refine ⟨h1, ?_, ?_⟩
      · rw [h2, hR]
        simp only [List.length_cons]
        omega
      · rw [h3, hR]
        simp only
        rw [take_succ_set _ _ _ (by omega), List.append_assoc]
        congr 1
        rw [show 10 - s.functionCount = (10 - (s.functionCount + 1)) + 1 by omega,
          List.take_succ_cons]
        rfl
    · have hR : RegisterFunction s e.name e.function = s := by
        unfold RegisterFunction
        rw [if_neg hfull]
      rw [hR]
      obtain ⟨h1, h2, h3⟩ := ih s hlen hcount
      refine ⟨h1, ?_, ?_⟩
      · rw [h2]
        simp only [List.length_cons]
        omega
      · rw [h3]
        have : 10 - s.functionCount = 0 := by omega
        simp [this]

/-- C13 (registry capacity): on the constructed engine, any sequence of `RegisterFunction`
calls stores the first ten (name, handler) pairs in registration order: after `n` calls
`functionCount` is `min n 10`, never above 10, and the stored entries are the first
`min n 10` pairs.  With ten pairs all ten are stored and `functionCount = 10`; every further
call returns the engine unchanged. -/
theorem RegisterFunction_capacity (rxMem : Nat → Nat) (fnMem : Nat → FunctionEntry)
    (entries : List FunctionEntry) :
    (registerAll (construct rxMem fnMem) entries).functionCount = min entries.length 10 ∧
    (registerAll (construct rxMem fnMem) entries).functionCount ≤ 10 ∧
    (registerAll (construct rxMem fnMem) entries).functions.take
        (registerAll (construct rxMem fnMem) entries).functionCount = entries.take 10 ∧
    (10 ≤ entries.length → ∀ (name : List Nat) (function : RPCFunctionPtr),
      RegisterFunction (registerAll (construct rxMem fnMem) entries) name function =
        registerAll (construct rxMem fnMem) entries) := by
  obtain ⟨_, h2, h3⟩ := registerAll_spec (construct rxMem fnMem) entries
    (by simp [construct]) (by simp [construct])
  have hc : (construct rxMem fnMem).functionCount = 0 := rfl
  rw [hc] at h2 h3
  simp only [Nat.zero_add, List.take_zero, List.nil_append, Nat.sub_zero] at h2 h3
  refine ⟨h2, by rw [h2]; omega, h3, ?_⟩
  intro h10 name function
  unfold RegisterFunction
  rw [if_neg (by rw [h2]; omega)]

/-- Witness for C14: on the engine with the registered function `echo`, the lookup of
`echo` succeeds. -/
theorem CallFunction_lookup_witness :
    (0 < withEcho.functionCount ∧
      strcmpEq (withEcho.functions.getD 0 default).name [0x65, 0x63, 0x68, 0x6F] = true) ∧
    (CallFunction withEcho [0x65, 0x63, 0x68, 0x6F] [1, 2] 2 none 0).2.1 = true :=
  ⟨by decide,
    (CallFunction_lookup withEcho [0x65, 0x63, 0x68, 0x6F] [1, 2] 2 none 0).1.mpr
      ⟨0, by decide, by decide⟩⟩

/-- Witness for C13: eleven registrations of `echo` on a fresh engine; the eleventh is
ignored and a twelfth changes nothing. -/
theorem RegisterFunction_capacity_witness :
    10 ≤ (List.replicate 11 (⟨[0x65, 0x63, 0x68, 0x6F], echo⟩ : FunctionEntry)).length ∧
    (registerAll fresh (List.replicate 11 ⟨[0x65, 0x63, 0x68, 0x6F], echo⟩)).functionCount =
      10 ∧
    RegisterFunction (registerAll fresh (List.replicate 11 ⟨[0x65, 0x63, 0x68, 0x6F], echo⟩))
        [0x66] echo =
      registerAll fresh (List.replicate 11 ⟨[0x65, 0x63, 0x68, 0x6F], echo⟩) :=
  ⟨by decide,
    (RegisterFunction_capacity zeroHeap (fun _ => default)
      (List.replicate 11 ⟨[0x65, 0x63, 0x68, 0x6F], echo⟩)).1,
    (RegisterFunction_capacity zeroHeap (fun _ => default)
      (List.replicate 11 ⟨[0x65, 0x63, 0x68, 0x6F], echo⟩)).2.2.2 (by decide) [0x66] echo⟩

end RPC

/-! ## Dispatcher: requests -/

namespace RPC

theorem find_first_match (s : RPC) (name : List Nat) (i : Nat) (hi : i < s.functionCount)
    (hmatch : strcmpEq (s.functions.getD i default).name name = true)
    (hfirst : ∀ j, j < i → strcmpEq (s.functions.getD j default).name name = false) :
    (List.range s.functionCount).find?
      (fun i => strcmpEq (s.functions.getD i default).name name) = some i := by
  rw [List.find?_range_eq_some]
  refine ⟨hmatch, List.mem_range.mpr hi, ?_⟩
  intro j hj
  show (!strcmpEq (s.functions.getD j default).name name) = true
  rw [hfirst j hj]
  rfl

theorem ProcessMessage_request_found (heap : Nat → Nat) (s : RPC) (id : Nat)
    (functionName args : List Nat) (argsLength : Nat) (i : Nat)
    (hfind : (List.range s.functionCount).find?
      (fun i => strcmpEq (s.functions.getD i default).name functionName) = some i) :
    ProcessMessage heap s MSG_REQUEST id functionName args argsLength =
      SendResponse heap { s with handlerCalls := s.handlerCalls ++ [⟨i, args, argsLength⟩] }
        MSG_REQUEST id true
        ((s.functions.getD i default).function args argsLength none 0).1
        ((s.functions.getD i default).function args argsLength none 0).2 := by
  simp only [ProcessMessage, if_true,
    CallFunction_found s functionName args argsLength none 0 i hfind]

theorem responseMessage_some (heap : Nat → Nat) (id : Nat) (success : Bool) (out : List Nat) :
    responseMessage heap id success (some out) out.length =
      ([if success then MSG_RESPONSE else MSG_ERROR] ++ toLE32 id ++ heapBytes heap (5 + 5) 32
        ++ [0]) ++ out := by
  unfold responseMessage
  by_cases h : out.length > 0
  · simp [h, heapBytes]
  · have h0 : out = [] := List.length_eq_zero.mp (by omega)
    subst h0
    simp

theorem messageFields_type (packet : List Nat) :
    (messageFields packet).type = packet.getD 5 0 := by
  show (packet.drop 5).getD 0 0 = packet.getD 5 0
  simp [List.getD_eq_getElem?_getD]

theorem messageFields_id (packet : List Nat) :
    (messageFields packet).id = fromLE32 (packet.drop 6) := by
  show fromLE32 ((packet.drop 5).drop 1) = fromLE32 (packet.drop 6)
  rw [List.drop_drop]

theorem messageFields_argsLength (packet : List Nat) :
    (messageFields packet).argsLength =
      (packetLength packet + 4294967296 - 38) % 4294967296 := by
  simp only [messageFields]

theorem messageFields_arguments (packet : List Nat) :
    (messageFields packet).arguments =
      (packet.drop 43).take ((packetLength packet + 4294967296 - 38) % 4294967296) := by
  simp only [messageFields, List.drop_drop]

theorem messageFields_packetBuffer (M : Nat) (hdr out : List Nat) (t : Nat) (id : Nat)
    (rest : List Nat) (hhdr : hdr = [t] ++ toLE32 id ++ rest) (hlen : hdr.length = 38)
    (hM : M = 38 + out.length) (hfit : M < 65536) (hid : id < 4294967296) :
    (messageFields (packetBuffer M (hdr ++ out))).type = t ∧
    (messageFields (packetBuffer M (hdr ++ out))).id = id ∧
    (messageFields (packetBuffer M (hdr ++ out))).argsLength = out.length ∧
    (messageFields (packetBuffer M (hdr ++ out))).arguments = out := by
  have hal : (messageFields (packetBuffer M (hdr ++ out))).argsLength = out.length := by
    rw [messageFields_argsLength, packetLength_packetBuffer]
    omega
  refine ⟨?_, ?_, hal, ?_⟩
  · rw [messageFields_type]
    subst hhdr
    simp [packetBuffer]
  · rw [messageFields_id]
    subst hhdr
    have h := fromLE32_toLE32 hid
    simp only [fromLE32, toLE32, List.getD_cons_zero, List.getD_cons_succ] at h
    simp only [packetBuffer, toLE32, fromLE32, List.cons_append,
      List.nil_append, List.drop_succ_cons, List.drop_zero, List.getD_cons_zero,
      List.getD_cons_succ]
    exact h
  · rw [messageFields_arguments, ← messageFields_argsLength, hal]
    have hd : (packetBuffer M (hdr ++ out)).drop 43 =
        out ++ [crcFold 0 (hdr ++ out), 0xFE] := by
      simp only [packetBuffer, List.cons_append, List.nil_append, List.drop_succ_cons,
        List.append_assoc]
      rw [← hlen, List.drop_left]
    rw [hd, List.take_left]

theorem responseMessage_none_zero (heap : Nat → Nat) (id : Nat) (success : Bool) :
    responseMessage heap id success none 0 = responseMessage heap id success (some []) 0 := by
  simp [responseMessage, heapBytes]

/-- C11, amended (successful request yields a Response carrying the handler output): when
`ProcessMessage` receives a Request `(id, name, args)`, the first registered entry whose name
equals `name` is entry `i`, its handler returns the output bytes `out` for the arguments (a
null pointer stands for the empty output), and the frame fits the 16-bit length fields
(`38 + length of out + 7 < 65536`), then the handler is invoked once and `SendPacket` is
called exactly once, with a frame whose message type is Response (2), whose id is the request
id, whose argument bytes are `out` (declared payload length `38 + length of out`), and whose
two checksums and terminator are valid. -/
theorem ProcessMessage_request_response (heap : Nat → Nat) (s : RPC) (id : Nat)
    (functionName args : List Nat) (argsLength : Nat) (i : Nat) (out : List Nat)
    (response : Option (List Nat))
    (hid : id < 4294967296)
    (hi : i < s.functionCount)
    (hmatch : strcmpEq (s.functions.getD i default).name functionName = true)
    (hfirst : ∀ j, j < i → strcmpEq (s.functions.getD j default).name functionName = false)
    (hout : (s.functions.getD i default).function args argsLength none 0 =
      (response, out.length))
    (hresp : response = some out ∨ (response = none ∧ out = []))
    (hfit : 38 + out.length + 7 < 65536) :
    ∃ buffer,
      (ProcessMessage heap s MSG_REQUEST id functionName args argsLength).sent =
        s.sent ++ [⟨buffer, 38 + out.length + 7⟩] ∧
      (messageFields buffer).type = MSG_RESPONSE ∧
      (messageFields buffer).id = id ∧
      (messageFields buffer).argsLength = out.length ∧
      (messageFields buffer).arguments = out ∧
      packetLength buffer = 38 + out.length ∧
      WellFormedFrame (38 + out.length) buffer ∧
      CheckCRC buffer (38 + out.length + 7) = true ∧
      (ProcessMessage heap s MSG_REQUEST id functionName args argsLength).handlerCalls =
        s.handlerCalls ++ [⟨i, args, argsLength⟩] := by
  have hfind := find_first_match s functionName i hi hmatch hfirst
  rw [ProcessMessage_request_found heap s id functionName args argsLength i hfind, hout]
  have hsome : responseMessage heap id true response out.length =
      responseMessage heap id true (some out) out.length := by
    rcases hresp with h | ⟨h, h0⟩
    · rw [h]
    · rw [h, h0]
      exact responseMessage_none_zero heap id true
  have hmsg := responseMessage_some heap id true out
  have hlen := responseMessage_length heap id true (some out) out.length
  have hw := packetBuffer_wellFormed (38 + out.length) _ hlen (by omega)
  have hf := messageFields_packetBuffer (38 + out.length)
    ([MSG_RESPONSE] ++ toLE32 id ++ heapBytes heap (5 + 5) 32 ++ [0]) out MSG_RESPONSE id
    (heapBytes heap (5 + 5) 32 ++ [0]) (by simp) (by simp [heapBytes, toLE32]) rfl (by omega) hid
  simp only [Bool.true_eq_false, if_false, if_true] at hmsg
  rw [← hmsg] at hf
  refine ⟨packetBuffer (38 + out.length) (responseMessage heap id true (some out) out.length),
    ?_, hf.1, hf.2.1, hf.2.2.1, hf.2.2.2, ?_, hw, CheckCRC_of_wellFormed (by omega) hw, rfl⟩
  · rw [SendResponse_sent]
    have h7 : (5 + (38 + out.length) + 2) % 65536 = 38 + out.length + 7 := by omega
    simp only [h7, hsome]
  · rw [packetLength_packetBuffer]
    omega

/-- Witness for C11: the handler `echo`, id 5 and the arguments `01 02` give a Response with
id 5 and the arguments `01 02`. -/
theorem ProcessMessage_request_response_witness :
    ∃ buffer,
      (ProcessMessage zeroHeap withEcho MSG_REQUEST 5 [0x65, 0x63, 0x68, 0x6F, 0] [1, 2] 2).sent =
        withEcho.sent ++ [⟨buffer, 38 + [1, 2].length + 7⟩] ∧
      (messageFields buffer).type = MSG_RESPONSE ∧
      (messageFields buffer).id = 5 ∧
      (messageFields buffer).argsLength = [1, 2].length ∧
      (messageFields buffer).arguments = [1, 2] ∧
      packetLength buffer = 38 + [1, 2].length ∧
      WellFormedFrame (38 + [1, 2].length) buffer ∧
      CheckCRC buffer (38 + [1, 2].length + 7) = true ∧
      (ProcessMessage zeroHeap withEcho MSG_REQUEST 5 [0x65, 0x63, 0x68, 0x6F, 0] [1, 2] 2
        ).handlerCalls = withEcho.handlerCalls ++ [⟨0, [1, 2], 2⟩] :=
  ProcessMessage_request_response zeroHeap withEcho 5 [0x65, 0x63, 0x68, 0x6F, 0] [1, 2] 2 0
    [1, 2] (some [1, 2]) (by decide) (by decide) (by decide) (by decide) (by decide)
    (Or.inl rfl) (by decide)

theorem SendResponse_packetLength (heap : Nat → Nat) (s : RPC) (type id : Nat)
    (success : Bool) (responseData : Option (List Nat)) (responseLength : Nat) :
    (SendResponse heap s type id success responseData responseLength).sent.map
        (fun p => (packetLength p.buffer, p.PacketLength)) =
      s.sent.map (fun p => (packetLength p.buffer, p.PacketLength)) ++
        [((38 + responseLength) % 65536, (5 + (38 + responseLength) + 2) % 65536)] := by
  rw [SendResponse_sent]
  simp only [List.map_append, List.map_cons, List.map_nil, packetLength_packetBuffer]

/-- Counterexample for C11 as stated: the registered handler `b` returns `65491 + argsLength`
bytes.  For a request without arguments the message is `38 + 65491 = 65529` bytes long and
`SendPacket` receives the length `65536 mod 65536 = 0`; for a request with seven argument
bytes the message is `65536` bytes long and the frame declares the payload length 0. -/
theorem ProcessMessage_response_length_truncated :
    (withBig.functions.getD 0 default).function [] 0 none 0 =
      (some (List.replicate (65491 + 0) 0), 65491 + 0) ∧
    (ProcessMessage zeroHeap withBig MSG_REQUEST 5 [0x62, 0] [] 0).sent.map
      (fun p => (packetLength p.buffer, p.PacketLength)) = [(65529, 0)] ∧
    (withBig.functions.getD 0 default).function [1, 2, 3, 4, 5, 6, 7] 7 none 0 =
      (some (List.replicate (65491 + 7) 0), 65491 + 7) ∧
    (ProcessMessage zeroHeap withBig MSG_REQUEST 5 [0x62, 0] [1, 2, 3, 4, 5, 6, 7] 7).sent.map
      (fun p => (packetLength p.buffer, p.PacketLength)) = [(0, 7)] := by
  refine ⟨rfl, ?_, rfl, ?_⟩
  · rw [ProcessMessage_request_found zeroHeap withBig 5 [0x62, 0] [] 0 0 (by decide),
      SendResponse_packetLength]
    rfl
  · rw [ProcessMessage_request_found zeroHeap withBig 5 [0x62, 0] [1, 2, 3, 4, 5, 6, 7] 7 0
      (by decide), SendResponse_packetLength]
    rfl

end RPC

/-! ## Pending-request table over runs -/

namespace RPC

theorem SendRequest_pending (heap : Nat → Nat) (s : RPC) (functionName args : List Nat)
    (callback : Option Nat) :
    ((SendRequest heap s functionName args callback).1.pendingRequests,
      (SendRequest heap s functionName args callback).1.pendingCount,
      (SendRequest heap s functionName args callback).1.nextId) =
      if callback.isSome ∧ s.pendingCount < 10 then
        (s.pendingRequests.set s.pendingCount ⟨s.nextId, callback⟩,
          (s.pendingCount + 1) % 256, (s.nextId + 1) % 4294967296)
      else (s.pendingRequests, s.pendingCount, (s.nextId + 1) % 4294967296) := by
  unfold SendRequest sendFrame
  by_cases h : callback.isSome ∧ s.pendingCount < 10 <;> simp [h]

theorem SendRequest_PendingInv (heap : Nat → Nat) (s : RPC) (functionName args : List Nat)
    (callback : Option Nat) (h : PendingInv s) :
    PendingInv (SendRequest heap s functionName args callback).1 := by
  obtain ⟨hlen, hcount, hcb⟩ := h
  have hp := SendRequest_pending heap s functionName args callback
  by_cases hc : callback.isSome ∧ s.pendingCount < 10
  · rw [if_pos hc] at hp
    simp only [Prod.mk.injEq] at hp
    obtain ⟨h1, h2, _⟩ := hp
    have hmod : (s.pendingCount + 1) % 256 = s.pendingCount + 1 := Nat.mod_eq_of_lt (by omega)
    refine ⟨by rw [h1]; simpa using hlen, by rw [h2, hmod]; omega, ?_⟩
    intro i hi
    rw [h2, hmod] at hi
    rw [h1]
    have hget : (s.pendingRequests.set s.pendingCount ⟨s.nextId, callback⟩).getD i default =
        if s.pendingCount = i then ⟨s.nextId, callback⟩ else s.pendingRequests.getD i default := by
      simp only [List.getD_eq_getElem?_getD, List.getElem?_set]
      by_cases hik : s.pendingCount = i
      · simp [hik, show i < s.pendingRequests.length by omega]
      · simp [hik]
    rw [hget]
    by_cases hik : s.pendingCount = i
    · rw [if_pos hik]
      intro hnone
      have := hc.1
      simp only at hnone
      rw [hnone] at this
      simp at this
    · rw [if_neg hik]
      exact hcb i (by omega)
  · rw [if_neg hc] at hp
    simp only [Prod.mk.injEq] at hp
    obtain ⟨h1, h2, _⟩ := hp
    exact ⟨by rw [h1]; exact hlen, by rw [h2]; exact hcount, by rw [h1, h2]; exact hcb⟩

theorem ResponseStep_pending_unchanged (s : RPC) (response : Response) (h : PendingInv s) :
    (ResponseStep s response).pendingRequests = s.pendingRequests ∧
    (ResponseStep s response).pendingCount = s.pendingCount ∧
    (ResponseStep s response).nextId = s.nextId := by
  cases hfind : (List.range s.pendingCount).find?
      (fun i => (s.pendingRequests.getD i default).id == response.id) with
  | none =>
    unfold ResponseStep
    rw [hfind]
    exact ⟨rfl, rfl, rfl⟩
  | some i =>
    have hi : i < s.pendingCount := List.mem_range.mp (List.mem_of_find?_eq_some hfind)
    cases hcb : (s.pendingRequests.getD i default).callback with
    | none => exact absurd hcb (h.2.2 i hi)
    | some cb =>
      obtain ⟨h1, h2, _⟩ := ResponseStep_callback s response i cb hfind hcb
      refine ⟨h1, h2, ?_⟩
      unfold ResponseStep
      rw [hfind]
      simp only [hcb]

theorem step_PendingInv (s : RPC) (op : Op) (h : PendingInv s) : PendingInv (step s op) := by
  cases op with
  | send heap functionName args callback => exact SendRequest_PendingInv heap s _ _ _ h
  | deliver response =>
    obtain ⟨h1, h2, _⟩ := ResponseStep_pending_unchanged s response h
    unfold step
    refine ⟨by rw [h1]; exact h.1, by rw [h2]; exact h.2.1, ?_⟩
    rw [h1, h2]
    exact h.2.2

theorem run_append (s : RPC) (ops : List Op) (op : Op) :
    run s (ops ++ [op]) = step (run s ops) op := by
  simp [run, List.foldl_append]

theorem sendCount_append (ops : List Op) (op : Op) :
    sendCount (ops ++ [op]) = sendCount ops + sendCount [op] := by
  induction ops with
  | nil => simp [sendCount]
  | cons o ops ih =>
    cases o with
    | send heap functionName args callback =>
      simp [sendCount, ih]
      omega
    | deliver response => simp [sendCount, ih]

theorem callbackSendCount_append (ops : List Op) (op : Op) :
    callbackSendCount (ops ++ [op]) = callbackSendCount ops + callbackSendCount [op] := by
  induction ops with
  | nil => simp [callbackSendCount]
  | cons o ops ih =>
    cases o with
    | send heap functionName args callback =>
      by_cases hc : callback.isSome
      · simp [callbackSendCount, ih, hc]
        omega
      · simp [callbackSendCount, ih, hc]
    | deliver response => simp [callbackSendCount, ih]

theorem construct_PendingInv (rxMem : Nat → Nat) (fnMem : Nat → FunctionEntry) :
    PendingInv (construct rxMem fnMem) := by
  refine ⟨by simp [construct], by simp [construct], ?_⟩
  intro i hi
  simp [construct] at hi

/-- In every state reached from the constructed engine the pending table is well formed,
`pendingCount` is the number of `SendRequest` calls with a callback, capped at 10, and
`nextId` is one more than the number of `SendRequest` calls, modulo `2 ^ 32`. -/
theorem run_spec (rxMem : Nat → Nat) (fnMem : Nat → FunctionEntry) (ops : List Op) :
    PendingInv (run (construct rxMem fnMem) ops) ∧
    (run (construct rxMem fnMem) ops).pendingCount = min (callbackSendCount ops) 10 ∧
    (run (construct rxMem fnMem) ops).nextId = (sendCount ops + 1) % 4294967296 := by
  induction ops using List.reverseRecOn with
  | nil => exact ⟨construct_PendingInv rxMem fnMem, rfl, rfl⟩
  | append_singleton ops op ih =>
    obtain ⟨hinv, hcount, hid⟩ := ih
    rw [run_append, sendCount_append, callbackSendCount_append]
    refine ⟨step_PendingInv _ op hinv, ?_, ?_⟩
    · cases op with
      | send heap functionName args callback =>
        have hp := SendRequest_pending heap (run (construct rxMem fnMem) ops) functionName args
          callback
        unfold step
        by_cases hc : callback.isSome ∧ (run (construct rxMem fnMem) ops).pendingCount < 10
        · rw [if_pos hc] at hp
          simp only [Prod.mk.injEq] at hp
          rw [hp.2.1, Nat.mod_eq_of_lt (by omega), hcount]
          simp only [callbackSendCount, hc.1, if_true]
          have := hc.2
          rw [hcount] at this
          omega
        · rw [if_neg hc] at hp
          simp only [Prod.mk.injEq] at hp
          rw [hp.2.1, hcount]
          by_cases hsome : callback.isSome
          · have : ¬ (run (construct rxMem fnMem) ops).pendingCount < 10 := fun h => hc ⟨hsome, h⟩
            rw [hcount] at this
            simp only [callbackSendCount, hsome, if_true]
            omega
          · simp [callbackSendCount, hsome]
      | deliver response =>
        unfold step
        rw [(ResponseStep_pending_unchanged _ response hinv).2.1, hcount]
        simp [callbackSendCount]
    · cases op with
      | send heap functionName args callback =>
        have hp := SendRequest_pending heap (run (construct rxMem fnMem) ops) functionName args
          callback
        unfold step
        have hn : (SendRequest heap (run (construct rxMem fnMem) ops) functionName args
            callback).1.nextId = ((run (construct rxMem fnMem) ops).nextId + 1) % 4294967296 := by
          by_cases hc : callback.isSome ∧ (run (construct rxMem fnMem) ops).pendingCount < 10
          · rw [if_pos hc] at hp
            simp only [Prod.mk.injEq] at hp
            exact hp.2.2
          · rw [if_neg hc] at hp
            simp only [Prod.mk.injEq] at hp
            exact hp.2.2
        rw [hn, hid]
        simp only [sendCount]
        omega
      | deliver response =>
        unfold step
        rw [(ResponseStep_pending_unchanged _ response hinv).2.2, hid]
        simp [sendCount]

/-- C19 (pending slots are never freed): in every state reached from the constructed engine
by `SendRequest` calls and response-delivery steps, every entry of
`pendingRequests[0 .. pendingCount)` has a non-null callback; hence a response-delivery step
leaves the table and `pendingCount` unchanged (the removal branch is never taken),
`pendingCount` never decreases and equals the number of `SendRequest` calls made with a
callback, capped at 10; after ten such calls no later `SendRequest` stores its callback. -/
theorem pending_slots_never_freed (rxMem : Nat → Nat) (fnMem : Nat → FunctionEntry)
    (ops : List Op) :
    (∀ i, i < (run (construct rxMem fnMem) ops).pendingCount →
      ((run (construct rxMem fnMem) ops).pendingRequests.getD i default).callback ≠ none) ∧
    (∀ response,
      (ResponseStep (run (construct rxMem fnMem) ops) response).pendingRequests =
        (run (construct rxMem fnMem) ops).pendingRequests ∧
      (ResponseStep (run (construct rxMem fnMem) ops) response).pendingCount =
        (run (construct rxMem fnMem) ops).pendingCount) ∧
    (∀ op, (run (construct rxMem fnMem) ops).pendingCount ≤
      (step (run (construct rxMem fnMem) ops) op).pendingCount) ∧
    (run (construct rxMem fnMem) ops).pendingCount = min (callbackSendCount ops) 10 ∧
    (10 ≤ callbackSendCount ops → ∀ heap functionName args callback,
      (SendRequest heap (run (construct rxMem fnMem) ops) functionName args
        callback).1.pendingRequests = (run (construct rxMem fnMem) ops).pendingRequests ∧
      (SendRequest heap (run (construct rxMem fnMem) ops) functionName args
        callback).1.pendingCount = (run (construct rxMem fnMem) ops).pendingCount) := by
  obtain ⟨hinv, hcount, _⟩ := run_spec rxMem fnMem ops
  refine ⟨hinv.2.2, ?_, ?_, hcount, ?_⟩
  · intro response
    have h := ResponseStep_pending_unchanged _ response hinv
    exact ⟨h.1, h.2.1⟩
  · intro op
    have h1 := (run_spec rxMem fnMem (ops ++ [op])).2.1
    rw [run_append, callbackSendCount_append] at h1
    rw [h1, hcount]
    omega
  · intro h10 heap functionName args callback
    have hp := SendRequest_pending heap (run (construct rxMem fnMem) ops) functionName args
      callback
    rw [if_neg (by rw [hcount]; omega)] at hp
    simp only [Prod.mk.injEq] at hp
    exact ⟨hp.1, hp.2.1⟩

/-- Witness for C19: after ten `SendRequest` calls with a callback and one response for
id 1, the table holds ten entries and an eleventh `SendRequest` with a callback leaves
`pendingCount` at 10. -/
theorem pending_slots_never_freed_witness :
    10 ≤ callbackSendCount
      (List.replicate 10 (Op.send zeroHeap [0x66] [] (some 7)) ++ [Op.deliver ⟨1, [], 0, false⟩]) ∧
    (SendRequest zeroHeap
      (run fresh (List.replicate 10 (Op.send zeroHeap [0x66] [] (some 7)) ++
        [Op.deliver ⟨1, [], 0, false⟩])) [0x66] [] (some 8)).1.pendingCount =
      (run fresh (List.replicate 10 (Op.send zeroHeap [0x66] [] (some 7)) ++
        [Op.deliver ⟨1, [], 0, false⟩])).pendingCount :=
  ⟨by decide,
    ((pending_slots_never_freed zeroHeap (fun _ => default)
      (List.replicate 10 (Op.send zeroHeap [0x66] [] (some 7)) ++
        [Op.deliver ⟨1, [], 0, false⟩])).2.2.2.2 (by decide) zeroHeap [0x66] [] (some 8)).2⟩

/-- C12, amended (pending-table overflow): in every state in which the pending-request table
already holds 10 entries, `SendRequest` called with a callback reports success (it returns
true, as in every other state), leaves the table and `pendingCount` unchanged, so that the
callback is not registered, and still transmits the request frame. -/
theorem SendRequest_full_table (heap : Nat → Nat) (s : RPC) (functionName args : List Nat)
    (callback : Option Nat) (hfull : s.pendingCount = 10) :
    (SendRequest heap s functionName args callback).2 = true ∧
    (SendRequest heap s functionName args callback).1.pendingRequests = s.pendingRequests ∧
    (SendRequest heap s functionName args callback).1.pendingCount = s.pendingCount ∧
    ∃ p, (SendRequest heap s functionName args callback).1.sent = s.sent ++ [p] := by
  have hp := SendRequest_pending heap s functionName args callback
  rw [if_neg (by omega)] at hp
  simp only [Prod.mk.injEq] at hp
  exact ⟨rfl, hp.1, hp.2.1, _, SendRequest_sent heap s functionName args callback⟩

/-- Witness for C12: the engine after ten `SendRequest` calls with a callback. -/
theorem SendRequest_full_table_witness :
    (run fresh (List.replicate 10 (Op.send zeroHeap [0x66] [] (some 7)))).pendingCount = 10 ∧
    (SendRequest zeroHeap (run fresh (List.replicate 10 (Op.send zeroHeap [0x66] [] (some 7))))
      [0x66] [] (some 8)).1.pendingCount =
      (run fresh (List.replicate 10 (Op.send zeroHeap [0x66] [] (some 7)))).pendingCount :=
  ⟨by decide,
    (SendRequest_full_table zeroHeap
      (run fresh (List.replicate 10 (Op.send zeroHeap [0x66] [] (some 7))))
      [0x66] [] (some 8) (by decide)).2.2.1⟩

/-- Counterexample for C12 as stated: after ten `SendRequest` calls with a callback the table
holds 10 entries, and the eleventh call, made with the callback 8, returns true; the callback
8 is in none of the ten slots. -/
theorem SendRequest_returns_true_when_full :
    (run fresh (List.replicate 10 (Op.send zeroHeap [0x66] [] (some 7)))).pendingCount = 10 ∧
    (SendRequest zeroHeap (run fresh (List.replicate 10 (Op.send zeroHeap [0x66] [] (some 7))))
      [0x66] [] (some 8)).2 = true ∧
    (SendRequest zeroHeap (run fresh (List.replicate 10 (Op.send zeroHeap [0x66] [] (some 7))))
      [0x66] [] (some 8)).1.pendingRequests.map PendingRequest.callback =
        List.replicate 10 (some 7) := by
  decide

theorem messageFields_head (M t id : Nat) (rest : List Nat) (hid : id < 4294967296) :
    (messageFields (packetBuffer M ([t] ++ toLE32 id ++ rest))).type = t ∧
    (messageFields (packetBuffer M ([t] ++ toLE32 id ++ rest))).id = id := by
  constructor
  · rw [messageFields_type]
    simp [packetBuffer]
  · rw [messageFields_id]
    have h := fromLE32_toLE32 hid
    simp only [fromLE32, toLE32, List.getD_cons_zero, List.getD_cons_succ] at h
    simp only [packetBuffer, toLE32, fromLE32, List.cons_append,
      List.nil_append, List.drop_succ_cons, List.drop_zero, List.getD_cons_zero,
      List.getD_cons_succ]
    exact h

theorem requestMessage_head (heap : Nat → Nat) (outId : Nat) (functionName args : List Nat) :
    requestMessage heap outId functionName args =
      [MSG_REQUEST] ++ toLE32 outId ++ ((strncpy functionName 31 ++ [0]) ++ [0] ++ args
        ++ heapBytes heap (5 + 38 + args.length) (strlen functionName + 1)) := by
  simp only [requestMessage, List.append_assoc]

/-- C17 (request id sequence): in a run that starts from the constructed engine, the
`SendRequest` call that comes after `n - 1` earlier `SendRequest` calls (and any number of
response-delivery steps) transmits one Request frame whose id field is `n mod 2 ^ 32`,
whatever the callback and the fill of the pending table; when the callback is stored
(callback non-null and fewer than 10 pending entries), the new pending entry holds that same
id and the callback. -/
theorem SendRequest_id_sequence (rxMem : Nat → Nat) (fnMem : Nat → FunctionEntry)
    (ops : List Op) (heap : Nat → Nat) (functionName args : List Nat) (callback : Option Nat) :
    ∃ p,
      (SendRequest heap (run (construct rxMem fnMem) ops) functionName args callback).1.sent =
        (run (construct rxMem fnMem) ops).sent ++ [p] ∧
      (messageFields p.buffer).type = MSG_REQUEST ∧
      (messageFields p.buffer).id = (sendCount ops + 1) % 4294967296 ∧
      (callback.isSome ∧ (run (construct rxMem fnMem) ops).pendingCount < 10 →
        (SendRequest heap (run (construct rxMem fnMem) ops) functionName args
          callback).1.pendingRequests.getD (run (construct rxMem fnMem) ops).pendingCount default =
          ⟨(sendCount ops + 1) % 4294967296, callback⟩ ∧
        (SendRequest heap (run (construct rxMem fnMem) ops) functionName args
          callback).1.pendingCount = (run (construct rxMem fnMem) ops).pendingCount + 1) := by
  obtain ⟨hinv, _, hid⟩ := run_spec rxMem fnMem ops
  have hlt : (run (construct rxMem fnMem) ops).nextId < 4294967296 := by
    rw [hid]; exact Nat.mod_lt _ (by norm_num)
  have hhead := messageFields_head
    (38 + (strlen functionName + 1) + args.length) MSG_REQUEST
    (run (construct rxMem fnMem) ops).nextId
    ((strncpy functionName 31 ++ [0]) ++ [0] ++ args
      ++ heapBytes heap (5 + 38 + args.length) (strlen functionName + 1)) hlt
  rw [← requestMessage_head, hid] at hhead
  refine ⟨_, SendRequest_sent heap _ functionName args callback, ?_, ?_, ?_⟩
  · rw [hid]; exact hhead.1
  · rw [hid]; exact hhead.2
  · intro hc
    have hp := SendRequest_pending heap (run (construct rxMem fnMem) ops) functionName args
      callback
    rw [if_pos hc] at hp
    simp only [Prod.mk.injEq] at hp
    have hmod : ((run (construct rxMem fnMem) ops).pendingCount + 1) % 256 =
        (run (construct rxMem fnMem) ops).pendingCount + 1 :=
      Nat.mod_eq_of_lt (by have := hc.2; omega)
    rw [hp.1, hp.2.1, hmod, hid]
    refine ⟨?_, rfl⟩
    simp only [List.getD_eq_getElem?_getD, List.getElem?_set]
    simp [show (run (construct rxMem fnMem) ops).pendingCount <
      (run (construct rxMem fnMem) ops).pendingRequests.length by rw [hinv.1]; omega]

/-- Witness for C17: on a fresh engine, the third `SendRequest` call, made after two calls
and one response delivery, carries the id 3 and stores it with its callback. -/
theorem SendRequest_id_sequence_witness :
    ((SendRequest zeroHeap
      (run fresh [Op.send zeroHeap [0x66] [] none, Op.deliver ⟨1, [], 0, false⟩,
        Op.send zeroHeap [0x66] [1] (some 7)]) [0x66] [1, 2] (some 8)).1.sent.map
      fun p => (messageFields p.buffer).id) = [1, 2, 3] ∧
    ∃ p,
      (SendRequest zeroHeap
        (run fresh [Op.send zeroHeap [0x66] [] none, Op.deliver ⟨1, [], 0, false⟩,
          Op.send zeroHeap [0x66] [1] (some 7)]) [0x66] [1, 2] (some 8)).1.sent =
        (run fresh [Op.send zeroHeap [0x66] [] none, Op.deliver ⟨1, [], 0, false⟩,
          Op.send zeroHeap [0x66] [1] (some 7)]).sent ++ [p] ∧
      (messageFields p.buffer).id =
        (sendCount [Op.send zeroHeap [0x66] [] none, Op.deliver ⟨1, [], 0, false⟩,
          Op.send zeroHeap [0x66] [1] (some 7)] + 1) % 4294967296 :=
  ⟨by decide,
    (SendRequest_id_sequence zeroHeap (fun _ => default)
      [Op.send zeroHeap [0x66] [] none, Op.deliver ⟨1, [], 0, false⟩,
        Op.send zeroHeap [0x66] [1] (some 7)] zeroHeap [0x66] [1, 2] (some 8)).imp
      fun _ h => ⟨h.1, h.2.2.1⟩⟩

end RPC

/-! ## Byte-stream decoder: enqueued packets -/

namespace RPC

theorem or_shift_byte {a b : Nat} (ha : a < 256) (hb : b < 256) :
    (a ||| (b <<< 8)) % 65536 = a + 256 * b := by
  have h := Nat.mul_add_lt_is_or (i := 8) (show a < 2 ^ 8 from ha) b
  rw [Nat.shiftLeft_eq, Nat.or_comm, Nat.mul_comm b (2 ^ 8), ← h]
  omega

theorem getD_take_lt (l : List Nat) (n k d : Nat) (hk : k < n) :
    (l.take n).getD k d = l.getD k d := by
  simp [List.getD_eq_getElem?_getD, List.getElem?_take, hk]

theorem packetLength_take (l : List Nat) (n : Nat) (hn : 3 ≤ n) :
    packetLength (l.take n) = packetLength l := by
  unfold packetLength
  rw [getD_take_lt l n 1 0 (by omega), getD_take_lt l n 2 0 (by omega)]

theorem CheckCRC_take (l : List Nat) (n : Nat) (hn : packetLength l + 5 ≤ n) :
    CheckCRC (l.take n) n = CheckCRC l n := by
  have hpl := packetLength_take l n (by omega)
  have h : (CheckCRC (l.take n) n = true) ↔ (CheckCRC l n = true) := by
    rw [CheckCRC_eq_true_iff, CheckCRC_eq_true_iff, hpl,
      getD_take_lt l n (n - 1) 0 (by omega), getD_take_lt l n 0 0 (by omega),
      getD_take_lt l n 3 0 (by omega), getD_take_lt l n (n - 2) 0 (by omega),
      crcRange_congr (f := fun i => (l.take n).getD (5 + i) 0)
        (g := fun i => l.getD (5 + i) 0) (n := packetLength l)
        (fun i hi => getD_take_lt l n (5 + i) 0 (by omega))]
  cases h1 : CheckCRC (l.take n) n <;> cases h2 : CheckCRC l n <;> simp_all

theorem mem_xQueueSend {α : Type} (queue : List α) (item x : α)
    (h : x ∈ xQueueSend queue item) : x ∈ queue ∨ x = item := by
  unfold xQueueSend at h
  split at h
  · simpa using h
  · exact Or.inl h

theorem store_spec {s t : RPC} {data : Nat} (h : store s data = some t) :
    s.index < 1024 ∧ t = { s with RxBuffer := s.RxBuffer.set s.index data,
                                  index := s.index + 1 } := by
  unfold store at h
  by_cases hi : s.index < 1024
  · rw [if_pos hi, Nat.mod_eq_of_lt (by omega)] at h
    injection h with h
    exact ⟨hi, h.symm⟩
  · rw [if_neg hi] at h
    exact absurd h (by simp)

theorem finishData_EnqueueInv (u : RPC) (hlen : u.RxBuffer.length = 1024)
    (hidx : u.index ≤ 1024) (h3 : 3 ≤ u.index) (hpl : u.packet_length = packetLength u.RxBuffer)
    (hst : u.state = .WAIT_DATA) (hq : ∀ p ∈ u.packetQueue, AcceptedPacket p) :
    EnqueueInv (finishData u) := by
  unfold finishData
  split
  · rename_i hth
    split
    · rename_i hterm
      split
      · exact ⟨hlen, hidx, by simp [hst], by simp [hst], fun _ => ⟨h3, hpl⟩, hq⟩
      · rename_i hcrc
        refine ⟨hlen, by simp, by simp, by simp, by simp, ?_⟩
        intro p hp
        rcases mem_xQueueSend _ _ _ hp with hp | hp
        · exact hq p hp
        · subst hp
          have htl : (u.RxBuffer.take u.index).length = u.index := by
            rw [List.length_take, hlen]; omega
          have hge : packetLength u.RxBuffer + 5 ≤ u.index := by rw [← hpl]; exact hth
          refine ⟨?_, ?_, ?_⟩
          · rw [htl, packetLength_take _ _ h3]
            exact hge
          · rw [htl, getD_take_lt _ _ _ _ (by omega)]
            exact hterm
          · rw [htl, CheckCRC_take _ _ hge]
            simpa using hcrc
    · exact ⟨hlen, by simp, by simp, by simp, by simp, hq⟩
  · exact ⟨hlen, hidx, by simp [hst], by simp [hst], fun _ => ⟨h3, hpl⟩, hq⟩

theorem AddBuffer_EnqueueInv {s t : RPC} {data : Nat} (hs : EnqueueInv s) (hd : data < 256)
    (h : AddBuffer s data = some t) : EnqueueInv t := by
  obtain ⟨hlen, hidx, hL, hH, hD, hq⟩ := hs
  unfold AddBuffer at h
  split at h
  · split at h
    · obtain ⟨u, hu, rfl⟩ := map_store_eq_some h
      obtain ⟨_, rfl⟩ := store_spec hu
      exact ⟨by simp [hlen], by simp, by simp, by simp, by simp, hq⟩
    · injection h with h
      subst h
      exact ⟨hlen, hidx, hL, hH, hD, hq⟩
  · rename_i hstate
    obtain ⟨u, hu, rfl⟩ := map_store_eq_some h
    obtain ⟨_, rfl⟩ := store_spec hu
    have h1 := hL hstate
    refine ⟨by simp [hlen], by simp; omega, by simp, ?_, by simp, hq⟩
    intro _
    refine ⟨by simp [h1], ?_, hd⟩
    show data = (s.RxBuffer.set s.index data).getD 1 0
    rw [getD_set, h1]
    simp [hlen]
  · rename_i hstate
    obtain ⟨u, hu, rfl⟩ := map_store_eq_some h
    obtain ⟨_, rfl⟩ := store_spec hu
    obtain ⟨h2, hpl, hlt⟩ := hH hstate
    refine ⟨by simp [hlen], by simp; omega, by simp, by simp, ?_, hq⟩
    intro _
    refine ⟨by simp [h2], ?_⟩
    show (s.packet_length ||| (data <<< 8)) % 65536 =
      packetLength (s.RxBuffer.set s.index data)
    rw [or_shift_byte hlt hd]
    unfold packetLength
    rw [getD_set, getD_set, h2, hpl]
    simp [hlen]
  · rename_i hstate
    obtain ⟨u, hu, rfl⟩ := map_store_eq_some h
    obtain ⟨hi, rfl⟩ := store_spec hu
    obtain ⟨h3, hpl⟩ := hD hstate
    apply finishData_EnqueueInv
    · simp [hlen]
    · show s.index + 1 ≤ 1024
      omega
    · show 3 ≤ s.index + 1
      omega
    · show s.packet_length = packetLength (s.RxBuffer.set s.index data)
      rw [hpl]
      unfold packetLength
      rw [getD_set, getD_set]
      simp [show ¬ (s.index = 1) by omega, show ¬ (s.index = 2) by omega]
    · exact hstate
    · exact hq

theorem feed_EnqueueInv {s t : RPC} {bytes : List Nat} (hs : EnqueueInv s)
    (hb : ∀ b ∈ bytes, b < 256) (h : feed s bytes = some t) : EnqueueInv t := by
  induction bytes generalizing s with
  | nil =>
    simp [feed] at h
    subst h
    exact hs
  | cons b bytes ih =>
    rw [feed_cons] at h
    cases hab : AddBuffer s b with
    | none => rw [hab] at h; simp at h
    | some u =>
      rw [hab] at h
      exact ih (AddBuffer_EnqueueInv hs (hb b (List.mem_cons_self _ _)) hab)
        (fun x hx => hb x (List.mem_cons_of_mem _ hx)) h

theorem construct_EnqueueInv (rxMem : Nat → Nat) (fnMem : Nat → FunctionEntry) :
    EnqueueInv (construct rxMem fnMem) := by
  refine ⟨by simp [construct], by simp [construct], by simp [construct], by simp [construct],
    by simp [construct], ?_⟩
  intro p hp
  simp [construct] at hp

/-- C20, amended (what is known of an enqueued packet): for every sequence of bytes fed to
`AddBuffer` from the constructed state, every packet in the packet queue holds the five
header bytes and as many payload bytes as it declares, ends with `0xFE` and is accepted by
`CheckCRC`.  Nothing bounds the declared payload length from below. -/
theorem AddBuffer_enqueues_accepted_packets (rxMem : Nat → Nat) (fnMem : Nat → FunctionEntry)
    (bytes : List Nat) (s : RPC) (p : List Nat)
    (hbytes : ∀ b ∈ bytes, b < 256)
    (hfeed : feed (construct rxMem fnMem) bytes = some s)
    (hp : p ∈ s.packetQueue) :
    packetLength p + 5 ≤ p.length ∧ p.getD (p.length - 1) 0 = 0xFE ∧
      CheckCRC p p.length = true :=
  (feed_EnqueueInv (construct_EnqueueInv rxMem fnMem) hbytes hfeed).2.2.2.2.2 p hp

/-- Witness for C20: the eight bytes `FA 03 00 D4 FB E9 00 FE` are enqueued as a packet. -/
theorem AddBuffer_enqueues_accepted_packets_witness :
    [0xFA, 3, 0, 0xD4, 0xFB, 0xE9, 0, 0xFE] ∈
      ((feed fresh [0xFA, 3, 0, 0xD4, 0xFB, 0xE9, 0, 0xFE]).getD fresh).packetQueue ∧
    (packetLength [0xFA, 3, 0, 0xD4, 0xFB, 0xE9, 0, 0xFE] + 5 ≤
        [0xFA, 3, 0, 0xD4, 0xFB, 0xE9, 0, 0xFE].length ∧
      [0xFA, 3, 0, 0xD4, 0xFB, 0xE9, 0, 0xFE].getD
        ([0xFA, 3, 0, 0xD4, 0xFB, 0xE9, 0, 0xFE].length - 1) 0 = 0xFE ∧
      CheckCRC [0xFA, 3, 0, 0xD4, 0xFB, 0xE9, 0, 0xFE]
        [0xFA, 3, 0, 0xD4, 0xFB, 0xE9, 0, 0xFE].length = true) :=
  ⟨by decide,
    AddBuffer_enqueues_accepted_packets zeroHeap (fun _ => default)
      [0xFA, 3, 0, 0xD4, 0xFB, 0xE9, 0, 0xFE]
      ((feed fresh [0xFA, 3, 0, 0xD4, 0xFB, 0xE9, 0, 0xFE]).getD fresh)
      [0xFA, 3, 0, 0xD4, 0xFB, 0xE9, 0, 0xFE] (by decide) rfl (by decide)⟩

/-- Counterexample for C20 as stated: feeding the eight bytes `FA 03 00 D4 FB E9 00 FE` to
the fresh decoder enqueues them as a packet whose declared payload length is 3.  In
`HandlePacket` the separator at payload offset 37 then lies outside the packet and the
argument length `3 - 38` wraps to `4294967261`. -/
theorem AddBuffer_enqueues_short_payload :
    (feed fresh [0xFA, 3, 0, 0xD4, 0xFB, 0xE9, 0, 0xFE]).map (fun s => s.packetQueue) =
      some [[0xFA, 3, 0, 0xD4, 0xFB, 0xE9, 0, 0xFE]] ∧
    packetLength [0xFA, 3, 0, 0xD4, 0xFB, 0xE9, 0, 0xFE] = 3 ∧
    [0xFA, 3, 0, 0xD4, 0xFB, 0xE9, 0, 0xFE].length = 8 ∧
    (messageFields [0xFA, 3, 0, 0xD4, 0xFB, 0xE9, 0, 0xFE]).argsLength = 4294967261 := by
  decide

end RPC

/-! ## Byte-stream decoder: buffer bound -/

namespace RPC

theorem feed_append (s : RPC) (a b : List Nat) :
    feed s (a ++ b) = (feed s a).bind fun t => feed t b := by
  simp [feed, List.foldlM_append]

theorem feed_none_append {s : RPC} {a : List Nat} (b : List Nat) (h : feed s a = none) :
    feed s (a ++ b) = none := by
  rw [feed_append, h]
  rfl

theorem feed_singleton (s : RPC) (b : Nat) : feed s [b] = AddBuffer s b := by
  simp [feed]

theorem getD_of_take_eq {l seg : List Nat} (h : l.take seg.length = seg) (k d : Nat)
    (hk : k < seg.length) : l.getD k d = seg.getD k d := by
  rw [← getD_take_lt l seg.length k d hk, h]

theorem packetLength_append (init : List Nat) (b : Nat) (h : 3 ≤ init.length) :
    packetLength (init ++ [b]) = packetLength init := by
  unfold packetLength
  simp only [List.getD_eq_getElem?_getD]
  rw [List.getElem?_append_left (by omega), List.getElem?_append_left (by omega)]

theorem OpenCandidate_init {init : List Nat} {b : Nat} (hne : init ≠ [])
    (h : OpenCandidate (init ++ [b])) : OpenCandidate init := by
  obtain ⟨h0, hk⟩ := h
  have hpos : 0 < init.length := List.length_pos.mpr hne
  refine ⟨?_, ?_⟩
  · rw [List.getD_eq_getElem?_getD] at h0 ⊢
    rwa [List.getElem?_append_left hpos] at h0
  · intro k hk1 hk2
    have h3 : 3 ≤ init.length := by
      have : 5 ≤ k := by omega
      omega
    rw [← packetLength_append init b h3] at hk2
    have := hk k (by simp; omega) hk2
    rwa [List.take_append_of_le_length (by omega)] at this

theorem CheckCRC_of_take_eq {l seg : List Nat} (h : l.take seg.length = seg)
    (hn : packetLength seg + 5 ≤ seg.length) :
    CheckCRC l seg.length = CheckCRC seg seg.length := by
  have hpl : packetLength l = packetLength seg := by
    rw [← packetLength_take l seg.length (by omega), h]
  rw [← CheckCRC_take l seg.length (by omega), h]

/-- The completion test on a decoder that holds the bytes `seg`. -/
theorem finishData_of_take (u : RPC) (seg : List Nat) (hidx : u.index = seg.length)
    (htake : u.RxBuffer.take seg.length = seg) (hpl : u.packet_length = packetLength seg)
    (h3 : 3 ≤ seg.length) :
    ((seg.length < packetLength seg + 5 ∨ Kept seg) → finishData u = u) ∧
    (packetLength seg + 5 ≤ seg.length → ¬ Kept seg →
      (finishData u).state = .WAIT_SYNC ∧ (finishData u).index = 0 ∧
        (finishData u).RxBuffer = u.RxBuffer) := by
  have hlast : u.RxBuffer.getD (u.index - 1) 0 = seg.getD (seg.length - 1) 0 := by
    rw [hidx]
    exact getD_of_take_eq htake _ _ (by omega)
  constructor
  · rintro (hlt | ⟨hfe, hcrc⟩)
    · unfold finishData
      rw [if_neg (by omega)]
    · unfold finishData
      by_cases hge : u.index ≥ u.packet_length + 5
      · rw [if_pos hge, if_pos (by rw [hlast, hfe])]
        have hc : CheckCRC u.RxBuffer u.index = false := by
          rw [hidx, CheckCRC_of_take_eq htake (by omega), hcrc]
        simp [hc]
      · rw [if_neg hge]
  · intro hge hk
    unfold finishData
    rw [if_pos (by omega)]
    by_cases hfe : seg.getD (seg.length - 1) 0 = 0xFE
    · rw [if_pos (by rw [hlast, hfe])]
      have hc : CheckCRC u.RxBuffer u.index = true := by
        rw [hidx, CheckCRC_of_take_eq htake hge]
        cases hcc : CheckCRC seg seg.length
        · exact absurd ⟨hfe, hcc⟩ hk
        · rfl
      simp [hc]
    · rw [if_neg (by rw [hlast]; exact hfe)]
      simp

/-- Storing one more byte in a decoder that holds the bytes `init`. -/
theorem store_of_take (u : RPC) (init : List Nat) (b : Nat) (hlen : u.RxBuffer.length = 1024)
    (hidx : u.index = init.length) (htake : u.RxBuffer.take init.length = init)
    (hlt : init.length < 1024) :
    ∃ t, store u b = some t ∧ t.RxBuffer.length = 1024 ∧ t.index = (init ++ [b]).length ∧
      t.RxBuffer.take (init ++ [b]).length = init ++ [b] ∧ t.state = u.state ∧
      t.packet_length = u.packet_length ∧ t.packetQueue = u.packetQueue := by
  refine ⟨{ u with RxBuffer := u.RxBuffer.set u.index b, index := u.index + 1 }, ?_, ?_, ?_, ?_,
    rfl, rfl, rfl⟩
  · unfold store
    rw [if_pos (by omega), Nat.mod_eq_of_lt (by omega)]
  · simp [hlen]
  · simp [hidx]
  · show (u.RxBuffer.set u.index b).take (init ++ [b]).length = init ++ [b]
    rw [List.length_append, List.length_singleton, hidx,
      take_succ_set _ _ _ (by omega), htake]

theorem AddBuffer_WAIT_SYNC (s : RPC) (data : Nat) (hst : s.state = .WAIT_SYNC) :
    AddBuffer s data =
      if data = 0xFA then
        (store { s with index := 0 } data).map fun t => { t with state := .WAIT_LEN_L }
      else some s := by
  unfold AddBuffer
  split <;> simp_all

theorem AddBuffer_WAIT_LEN_L (s : RPC) (data : Nat) (hst : s.state = .WAIT_LEN_L) :
    AddBuffer s data =
      (store s data).map fun t => { t with packet_length := data, state := .WAIT_LEN_H } := by
  unfold AddBuffer
  split <;> simp_all

theorem AddBuffer_WAIT_LEN_H (s : RPC) (data : Nat) (hst : s.state = .WAIT_LEN_H) :
    AddBuffer s data =
      (store s data).map fun t =>
        { t with packet_length := (t.packet_length ||| (data <<< 8)) % 65536,
                 state := .WAIT_DATA } := by
  unfold AddBuffer
  split <;> simp_all

/-- Feeding an open candidate of at most 1024 bytes to a decoder in `WAIT_SYNC`: every write
is inside `RxBuffer`, and the decoder holds exactly these bytes. -/
theorem feed_OpenCandidate (s : RPC) (hst : s.state = .WAIT_SYNC)
    (hlen : s.RxBuffer.length = 1024) (seg : List Nat) (hne : seg ≠ [])
    (hbl : ∀ b ∈ seg, b < 256) (ho : OpenCandidate seg) (hle : seg.length ≤ 1024) :
    ∃ t, feed s seg = some t ∧ t.RxBuffer.length = 1024 ∧ t.index = seg.length ∧
      t.RxBuffer.take seg.length = seg ∧
      (seg.length = 1 → t.state = .WAIT_LEN_L) ∧
      (seg.length = 2 → t.state = .WAIT_LEN_H ∧ t.packet_length = seg.getD 1 0) ∧
      (3 ≤ seg.length → t.state = .WAIT_DATA ∧ t.packet_length = packetLength seg) := by
  induction seg using List.reverseRecOn with
  | nil => exact absurd rfl hne
  | append_singleton init b ih =>
    by_cases hinit : init = []
    · subst hinit
      have hb : b = 0xFA := by simpa using ho.1
      subst hb
      obtain ⟨t, ht, htl, hti, htt, hts, _, _⟩ :=
        store_of_take { s with index := 0 } [] 0xFA hlen rfl rfl (by simp)
      refine ⟨{ t with state := .WAIT_LEN_L }, ?_, htl, hti, htt, fun _ => rfl, ?_, ?_⟩
      · rw [List.nil_append, feed_singleton]
        rw [AddBuffer_WAIT_SYNC s _ hst, if_pos rfl, ht]
        rfl
      · intro h
        simp at h
      · intro h
        simp at h
    · have hlen1 : (init ++ [b]).length = init.length + 1 := by simp
      have hpos : 0 < init.length := List.length_pos.mpr hinit
      obtain ⟨u, hu, hul, hui, hut, hu1, hu2, hu3⟩ :=
        ih hinit (fun x hx => hbl x (List.mem_append_left _ hx))
          (OpenCandidate_init hinit ho) (by omega)
      obtain ⟨t, ht, htl, hti, htt, hts, htp, _⟩ :=
        store_of_take u init b hul hui hut (by omega)
      rw [feed_append, hu, Option.some_bind, feed_singleton]
      rcases Nat.lt_or_ge init.length 3 with hlt3 | hge3
      · rcases Nat.lt_or_ge init.length 2 with hlt2 | hge2
        · -- the first length byte
          have h1 : init.length = 1 := by omega
          refine ⟨{ t with packet_length := b, state := .WAIT_LEN_H }, ?_, htl, hti, htt, ?_, ?_, ?_⟩
          · rw [AddBuffer_WAIT_LEN_L u b (hu1 h1), ht]
            rfl
          · intro h; omega
          · intro _
            refine ⟨rfl, ?_⟩
            show b = (init ++ [b]).getD 1 0
            rw [List.getD_eq_getElem?_getD, List.getElem?_append_right (by omega)]
            simp [h1]
          · intro h; omega
        · -- the second length byte
          have h2 : init.length = 2 := by omega
          obtain ⟨hus, hup⟩ := hu2 h2
          refine ⟨{ t with packet_length := (t.packet_length ||| (b <<< 8)) % 65536,
                           state := .WAIT_DATA }, ?_, htl, hti, htt, ?_, ?_, ?_⟩
          · rw [AddBuffer_WAIT_LEN_H u b hus, ht]
            rfl
          · intro h; omega
          · intro h; omega
          · intro _
            refine ⟨rfl, ?_⟩
            show (t.packet_length ||| (b <<< 8)) % 65536 = packetLength (init ++ [b])
            have hlow : init.getD 1 0 < 256 := by
              rw [List.getD_eq_getElem?_getD, List.getElem?_eq_getElem (by omega)]
              exact hbl _ (List.mem_append_left _ (List.getElem_mem _))
            have hhigh : b < 256 := hbl b (by simp)
            rw [htp, hup, or_shift_byte hlow hhigh]
            unfold packetLength
            simp only [List.getD_eq_getElem?_getD]
            rw [List.getElem?_append_left (by omega), List.getElem?_append_right (by omega)]
            simp [h2]
      · -- a data byte
        obtain ⟨hus, hup⟩ := hu3 hge3
        have hpl : t.packet_length = packetLength (init ++ [b]) := by
          rw [htp, hup, packetLength_append init b hge3]
        have hkeep : finishData t = t := by
          refine (finishData_of_take t (init ++ [b]) hti htt hpl (by omega)).1 ?_
          rcases Nat.lt_or_ge (init ++ [b]).length (packetLength (init ++ [b]) + 5) with h | h
          · exact Or.inl h
          · have := ho.2 (init ++ [b]).length (by omega) h
            rw [List.take_length] at this
            exact Or.inr this
        refine ⟨t, ?_, htl, hti, htt, ?_, ?_, ?_⟩
        · rw [AddBuffer_WAIT_DATA u b hus, ht, Option.map_some', hkeep]
        · intro h; omega
        · intro h; omega
        · intro _
          exact ⟨by rw [hts, hus], hpl⟩

/-- Feeding a closed candidate of at most 1024 bytes to a decoder in `WAIT_SYNC`: every
write is inside `RxBuffer`, and the decoder is in `WAIT_SYNC` again. -/
theorem feed_ClosedCandidate (s : RPC) (hst : s.state = .WAIT_SYNC)
    (hlen : s.RxBuffer.length = 1024) (seg : List Nat) (hbl : ∀ b ∈ seg, b < 256)
    (hc : ClosedCandidate seg) (hle : seg.length ≤ 1024) :
    ∃ t, feed s seg = some t ∧ t.state = .WAIT_SYNC ∧ t.RxBuffer.length = 1024 := by
  obtain ⟨h0, hge, hk, hnk⟩ := hc
  rcases List.eq_nil_or_concat seg with hnil | ⟨init, b, hseg⟩
  · subst hnil
    simp at hge
  rw [List.concat_eq_append] at hseg
  subst hseg
  have hlen1 : (init ++ [b]).length = init.length + 1 := by simp
  have h3 : 3 ≤ init.length := by omega
  have hinit : init ≠ [] := by
    intro h
    subst h
    simp at h3
  have ho : OpenCandidate init := by
    have hpos : 0 < init.length := by omega
    refine ⟨?_, ?_⟩
    · rw [List.getD_eq_getElem?_getD] at h0 ⊢
      rwa [List.getElem?_append_left hpos] at h0
    · intro k hk1 hk2
      rw [← packetLength_append init b h3] at hk2
      have := hk k (by omega) hk2
      rwa [List.take_append_of_le_length (by omega)] at this
  obtain ⟨u, hu, hul, hui, hut, _, _, hu3⟩ := feed_OpenCandidate s hst hlen init hinit
      (fun x hx => hbl x (List.mem_append_left _ hx)) ho (by omega)
  obtain ⟨hus, hup⟩ := hu3 h3
  obtain ⟨t, ht, htl, hti, htt, hts, htp, _⟩ := store_of_take u init b hul hui hut (by omega)
  have hpl : t.packet_length = packetLength (init ++ [b]) := by
    rw [htp, hup, packetLength_append init b h3]
  obtain ⟨hf1, hf2, hf3⟩ :=
    (finishData_of_take t (init ++ [b]) hti htt hpl (by omega)).2 hge hnk
  refine ⟨finishData t, ?_, hf1, by rw [hf3, htl]⟩
  rw [feed_append, hu, Option.some_bind, feed_singleton, AddBuffer_WAIT_DATA u b hus, ht,
    Option.map_some']

/-- Feeding an ignored byte to a decoder in `WAIT_SYNC` changes nothing. -/
theorem feed_Ignored (s : RPC) (hst : s.state = .WAIT_SYNC) (seg : List Nat)
    (hi : Ignored seg) : feed s seg = some s := by
  obtain ⟨h1, h2⟩ := hi
  match seg, h1, h2 with
  | [b], _, h2 =>
    rw [feed_singleton, AddBuffer_WAIT_SYNC s b hst, if_neg (by simpa using h2)]

/-- Feeding ignored bytes and closed candidates of at most 1024 bytes each. -/
theorem feed_segments (segs : List (List Nat)) (hbl : ∀ b ∈ segs.flatten, b < 256)
    (hsegs : ∀ seg ∈ segs, Ignored seg ∨ (ClosedCandidate seg ∧ seg.length ≤ 1024))
    (s : RPC) (hst : s.state = .WAIT_SYNC) (hlen : s.RxBuffer.length = 1024) :
    ∃ t, feed s segs.flatten = some t ∧ t.state = .WAIT_SYNC ∧ t.RxBuffer.length = 1024 := by
  induction segs generalizing s with
  | nil => exact ⟨s, rfl, hst, hlen⟩
  | cons seg segs ih =>
    have hseg := hsegs seg (List.mem_cons_self _ _)
    have hrest : ∀ x ∈ segs, Ignored x ∨ (ClosedCandidate x ∧ x.length ≤ 1024) :=
      fun x hx => hsegs x (List.mem_cons_of_mem _ hx)
    rw [List.flatten_cons] at hbl
    have hbl1 : ∀ b ∈ seg, b < 256 := fun b hb => hbl b (List.mem_append_left _ hb)
    have hbl2 : ∀ b ∈ segs.flatten, b < 256 := fun b hb => hbl b (List.mem_append_right _ hb)
    rw [List.flatten_cons, feed_append]
    rcases hseg with hi | ⟨hc, hle⟩
    · rw [feed_Ignored s hst seg hi, Option.some_bind]
      exact ih hbl2 hrest s hst hlen
    · obtain ⟨u, hu, hus, hul⟩ := feed_ClosedCandidate s hst hlen seg hbl1 hc hle
      rw [hu, Option.some_bind]
      exact ih hbl2 hrest u hus hul

/-- A decoder that holds 1024 bytes of an open candidate writes the next byte at
`RxBuffer[1024]`. -/
theorem feed_OpenCandidate_full (s : RPC) (hst : s.state = .WAIT_SYNC)
    (hlen : s.RxBuffer.length = 1024) (seg : List Nat) (hbl : ∀ b ∈ seg, b < 256)
    (ho : OpenCandidate seg) (hfull : seg.length = 1024) (rest : List Nat) (hrest : rest ≠ []) :
    feed s (seg ++ rest) = none := by
  have hne : seg ≠ [] := by
    intro h
    subst h
    simp at hfull
  obtain ⟨t, ht, _, hti, _, _, _, ht3⟩ := feed_OpenCandidate s hst hlen seg hne hbl ho (by omega)
  obtain ⟨hts, _⟩ := ht3 (by omega)
  match rest, hrest with
  | d :: rest, _ =>
    rw [feed_append, ht, Option.some_bind, feed_cons, AddBuffer_WAIT_DATA t d hts]
    have : store t d = none := by
      unfold store
      rw [if_neg (by omega)]
    rw [this]
    rfl

theorem construct_RxBuffer_length (rxMem : Nat → Nat) (fnMem : Nat → FunctionEntry) :
    (construct rxMem fnMem).RxBuffer.length = 1024 := by
  simp [construct]

theorem packetLength_append_of_le (tail : List Nat) (b : Nat) (k : Nat)
    (hk : k ≤ tail.length) (h5 : packetLength (tail ++ [b]) + 5 ≤ k) :
    packetLength (tail ++ [b]) = packetLength tail :=
  packetLength_append tail b (by omega)

/-- One more byte on an unfinished candidate: the candidate is finished or still open,
according to the completion test. -/
theorem OpenCandidate_snoc (tail : List Nat) (b : Nat) (hne : tail ≠ [])
    (ho : OpenCandidate tail) :
    if packetLength (tail ++ [b]) + 5 ≤ (tail ++ [b]).length ∧ ¬ Kept (tail ++ [b]) then
      ClosedCandidate (tail ++ [b])
    else OpenCandidate (tail ++ [b]) := by
  obtain ⟨h0, hk⟩ := ho
  have hpos : 0 < tail.length := List.length_pos.mpr hne
  have h0' : (tail ++ [b]).getD 0 0 = 0xFA := by
    rw [List.getD_eq_getElem?_getD] at h0 ⊢
    rwa [List.getElem?_append_left hpos]
  have hlen1 : (tail ++ [b]).length = tail.length + 1 := by simp
  have hpre : ∀ k, k ≤ tail.length → packetLength (tail ++ [b]) + 5 ≤ k →
      Kept ((tail ++ [b]).take k) := by
    intro k hk1 hk2
    rw [List.take_append_of_le_length hk1]
    rw [packetLength_append_of_le tail b k hk1 hk2] at hk2
    exact hk k hk1 hk2
  split
  · rename_i hfin
    exact ⟨h0', hfin.1, fun k hk1 hk2 => hpre k (by omega) hk2, hfin.2⟩
  · rename_i hfin
    refine ⟨h0', fun k hk1 hk2 => ?_⟩
    rcases Nat.lt_or_ge k (tail ++ [b]).length with hlt | hge
    · exact hpre k (by omega) hk2
    · have hkeq : k = (tail ++ [b]).length := by omega
      subst hkeq
      rw [List.take_length]
      by_contra hnk
      exact hfin ⟨hk2, hnk⟩

theorem OpenCandidate_sync : OpenCandidate [0xFA] := by decide

/-- Every byte sequence that `feed` processes without a write outside `RxBuffer` is
delimited into ignored bytes, finished candidates and one unfinished candidate, of at most
1024 bytes each. -/
theorem Delimited_of_feed (s0 : RPC) (hst : s0.state = .WAIT_SYNC)
    (hlen : s0.RxBuffer.length = 1024) (bytes : List Nat) (hbytes : ∀ b ∈ bytes, b < 256)
    (h : (feed s0 bytes).isSome = true) :
    ∃ segs tail, bytes = segs.flatten ++ tail ∧ Delimited segs tail := by
  induction bytes using List.reverseRecOn with
  | nil => exact ⟨[], [], rfl, by decide⟩
  | append_singleton bytes b ih =>
    have hb1 : ∀ x ∈ bytes, x < 256 := fun x hx => hbytes x (List.mem_append_left _ hx)
    have hsome : (feed s0 bytes).isSome = true := by
      cases hf : feed s0 bytes with
      | none => rw [feed_none_append [b] hf] at h; exact absurd h (by simp)
      | some u => rfl
    obtain ⟨segs, tail, rfl, hsegs, htail, hle⟩ := ih hb1 hsome
    have hbs : ∀ x ∈ segs.flatten, x < 256 := fun x hx => hb1 x (List.mem_append_left _ hx)
    have hbt : ∀ x ∈ tail, x < 256 := fun x hx => hb1 x (List.mem_append_right _ hx)
    by_cases hnil : tail = []
    · subst hnil
      by_cases hb : b = 0xFA
      · subst hb
        exact ⟨segs, [0xFA], by simp, hsegs, Or.inr OpenCandidate_sync, by simp⟩
      · refine ⟨segs ++ [[b]], [], by simp, ?_, Or.inl rfl, by simp⟩
        intro seg hseg
        rcases List.mem_append.mp hseg with hs | hs
        · exact hsegs seg hs
        · rw [List.mem_singleton] at hs
          subst hs
          exact Or.inl ⟨rfl, by simpa using hb⟩
    · have ho : OpenCandidate tail := htail.resolve_left hnil
      have hlt : tail.length < 1024 := by
        rcases Nat.lt_or_ge tail.length 1024 with hlt | hge
        · exact hlt
        · exfalso
          obtain ⟨u, hu, hus, hul⟩ := feed_segments segs hbs hsegs s0 hst hlen
          have hfull := feed_OpenCandidate_full u hus hul tail hbt ho (by omega) [b] (by simp)
          rw [List.append_assoc, feed_append, hu, Option.some_bind, hfull] at h
          exact absurd h (by simp)
      have hsnoc := OpenCandidate_snoc tail b hnil ho
      split at hsnoc
      · refine ⟨segs ++ [tail ++ [b]], [], by simp, ?_, Or.inl rfl, by simp⟩
        intro seg hseg
        rcases List.mem_append.mp hseg with hs | hs
        · exact hsegs seg hs
        · rw [List.mem_singleton] at hs
          subst hs
          exact Or.inr ⟨hsnoc, by simp; omega⟩
      · exact ⟨segs, tail ++ [b], by simp, hsegs, Or.inr hsnoc, by simp; omega⟩

/-- Every delimited byte sequence is processed without a write outside `RxBuffer`. -/
theorem feed_of_Delimited (s0 : RPC) (hst : s0.state = .WAIT_SYNC)
    (hlen : s0.RxBuffer.length = 1024) (segs : List (List Nat)) (tail : List Nat)
    (hbytes : ∀ b ∈ segs.flatten ++ tail, b < 256) (hd : Delimited segs tail) :
    (feed s0 (segs.flatten ++ tail)).isSome = true := by
  obtain ⟨hsegs, htail, hle⟩ := hd
  obtain ⟨u, hu, hus, hul⟩ := feed_segments segs
    (fun x hx => hbytes x (List.mem_append_left _ hx)) hsegs s0 hst hlen
  rw [feed_append, hu, Option.some_bind]
  by_cases hnil : tail = []
  · subst hnil
    rfl
  · obtain ⟨t, ht, _⟩ := feed_OpenCandidate u hus hul tail hnil
      (fun x hx => hbytes x (List.mem_append_right _ hx)) (htail.resolve_left hnil) hle
    rw [ht]
    rfl

theorem CheckCRC_header_mismatch (p : List Nat) (n : Nat)
    (h : headerCRC (p.getD 0 0) (packetLength p) ≠ p.getD 3 0) : CheckCRC p n = false := by
  cases hc : CheckCRC p n
  · rfl
  · exact absurd ((CheckCRC_eq_true_iff p n).mp hc).2.1 h

theorem kept_run_bytes (n : Nat) : ∀ b ∈ [0xFA, 0, 0, 0] ++ List.replicate n 0xFE, b < 256 := by
  intro b hb
  rcases List.mem_append.mp hb with h | h
  · simp only [List.mem_cons, List.mem_singleton, List.not_mem_nil, or_false] at h
    omega
  · rw [List.mem_replicate] at h
    omega

/-- A candidate with a wrong header checksum followed by `0xFE` bytes only is kept open by
every completion test. -/
theorem OpenCandidate_kept_run (n : Nat) :
    OpenCandidate ([0xFA, 0, 0, 0] ++ List.replicate n 0xFE) := by
  refine ⟨rfl, fun k hk1 hk2 => ?_⟩
  have hpl : packetLength ([0xFA, 0, 0, 0] ++ List.replicate n 0xFE) = 0 := rfl
  rw [hpl] at hk2
  have hlen : ([0xFA, 0, 0, 0] ++ List.replicate n 0xFE).length = 4 + n := by
    simp only [List.length_append, List.length_cons, List.length_nil, List.length_replicate]
  rw [hlen] at hk1
  have hkl : (([0xFA, 0, 0, 0] ++ List.replicate n 0xFE).take k).length = k := by
    rw [List.length_take, hlen]
    omega
  constructor
  · rw [hkl, getD_take_lt _ _ _ _ (by omega), List.getD_eq_getElem?_getD,
      List.getElem?_append_right (by simp; omega), List.getElem?_replicate]
    rw [if_pos (by simp; omega)]
    rfl
  · apply CheckCRC_header_mismatch
    rw [packetLength_take _ _ (by omega), hpl, getD_take_lt _ _ _ _ (by omega),
      getD_take_lt _ _ _ _ (by omega)]
    have h3 : ([0xFA, 0, 0, 0] ++ List.replicate n 0xFE).getD 3 0 = 0 := rfl
    have h0 : ([0xFA, 0, 0, 0] ++ List.replicate n 0xFE).getD 0 0 = 0xFA := rfl
    rw [h3, h0]
    decide

/-- A candidate that declares a length of 1020 or more is open as long as it holds at most
1024 bytes: the completion test is not reached. -/
theorem OpenCandidate_oversize (l h : Nat) (p : List Nat) (hL : 1020 ≤ l + 256 * h)
    (hp : p.length ≤ 1021) : OpenCandidate (0xFA :: l :: h :: p) := by
  refine ⟨rfl, fun k hk1 hk2 => ?_⟩
  have hpl : packetLength (0xFA :: l :: h :: p) = l + 256 * h := rfl
  simp only [List.length_cons] at hk1
  omega

/-- The length bytes declare 1020 or more: the decoder is not reset, it accumulates 1021
further bytes and writes the next one at `RxBuffer[1024]`. -/
theorem feed_oversize (s : RPC) (hst : s.state = .WAIT_SYNC) (hlen : s.RxBuffer.length = 1024)
    (l h : Nat) (p : List Nat) (hbl : ∀ b ∈ 0xFA :: l :: h :: p, b < 256)
    (hL : 1020 ≤ l + 256 * h) :
    if p.length ≤ 1021 then
      (feed s (0xFA :: l :: h :: p)).map (fun t => (t.state, t.index)) =
        some (.WAIT_DATA, 3 + p.length)
    else feed s (0xFA :: l :: h :: p) = none := by
  split
  · rename_i hp
    obtain ⟨t, ht, _, hti, _, _, _, ht3⟩ := feed_OpenCandidate s hst hlen (0xFA :: l :: h :: p)
      (by simp) hbl (OpenCandidate_oversize l h p hL hp) (by simp; omega)
    obtain ⟨hts, _⟩ := ht3 (by simp)
    rw [ht, Option.map_some', hts, hti]
    simp only [List.length_cons]
    rw [show p.length + 1 + 1 + 1 = 3 + p.length by omega]
  · rename_i hp
    have hsplit : 0xFA :: l :: h :: p = (0xFA :: l :: h :: p.take 1021) ++ p.drop 1021 := by
      simp
    rw [hsplit]
    refine feed_OpenCandidate_full s hst hlen _
      (fun b hb => hbl b ?_) (OpenCandidate_oversize l h _ hL (by simp)) ?_ _ ?_
    · rw [hsplit]
      exact List.mem_append_left _ hb
    · simp
      omega
    · intro hnil
      have := congrArg List.length hnil
      simp at this
      omega

end RPC

/-! ## Registry: the other member functions -/

namespace RPC

theorem finishData_registry (u : RPC) :
    (finishData u).functions = u.functions ∧ (finishData u).functionCount = u.functionCount := by
  unfold finishData
  split
  · split
    · split <;> exact ⟨rfl, rfl⟩
    · exact ⟨rfl, rfl⟩
  · exact ⟨rfl, rfl⟩

theorem CallFunction_registry (s : RPC) (name args : List Nat) (argsLength : Nat)
    (response : Option (List Nat)) (responseLength : Nat) :
    (CallFunction s name args argsLength response responseLength).1.functions = s.functions ∧
    (CallFunction s name args argsLength response responseLength).1.functionCount =
      s.functionCount := by
  unfold CallFunction
  split <;> exact ⟨rfl, rfl⟩

theorem ProcessMessage_registry (heap : Nat → Nat) (s : RPC) (type id : Nat)
    (functionName args : List Nat) (argsLength : Nat) :
    (ProcessMessage heap s type id functionName args argsLength).functions = s.functions ∧
    (ProcessMessage heap s type id functionName args argsLength).functionCount =
      s.functionCount := by
  unfold ProcessMessage
  split
  · exact CallFunction_registry s functionName args argsLength none 0
  · split
    · exact ⟨rfl, rfl⟩
    · split <;> exact ⟨rfl, rfl⟩

/-- The registry is written by `RegisterFunction` only: `SendRequest`, the response-delivery
step, `HandlePacket` and `AddBuffer` leave `functions` and `functionCount` as they are. -/
theorem registry_unchanged_by_other_calls (heap : Nat → Nat) (s : RPC)
    (functionName args packet : List Nat) (callback : Option Nat) (response : Response)
    (data : Nat) :
    ((SendRequest heap s functionName args callback).1.functions = s.functions ∧
      (SendRequest heap s functionName args callback).1.functionCount = s.functionCount) ∧
    ((ResponseStep s response).functions = s.functions ∧
      (ResponseStep s response).functionCount = s.functionCount) ∧
    ((HandlePacket heap s packet).functions = s.functions ∧
      (HandlePacket heap s packet).functionCount = s.functionCount) ∧
    (∀ t, AddBuffer s data = some t →
      t.functions = s.functions ∧ t.functionCount = s.functionCount) := by
  refine ⟨?_, ?_, ?_, ?_⟩
  · unfold SendRequest sendFrame
    by_cases h : callback.isSome ∧ s.pendingCount < 10 <;> simp [h]
  · unfold ResponseStep
    split
    · split <;> exact ⟨rfl, rfl⟩
    · exact ⟨rfl, rfl⟩
  · unfold HandlePacket
    by_cases hsep : (messageFields packet).separator ≠ 0
    · simp only
      rw [if_pos hsep]
      exact ⟨rfl, rfl⟩
    · simp only
      rw [if_neg hsep]
      exact ProcessMessage_registry _ _ _ _ _ _ _
  · intro t h
    unfold AddBuffer at h
    split at h
    · split at h
      · obtain ⟨u, hu, rfl⟩ := map_store_eq_some h
        obtain ⟨_, rfl⟩ := store_spec hu
        exact ⟨rfl, rfl⟩
      · injection h with h
        subst h
        exact ⟨rfl, rfl⟩
    · obtain ⟨u, hu, rfl⟩ := map_store_eq_some h
      obtain ⟨_, rfl⟩ := store_spec hu
      exact ⟨rfl, rfl⟩
    · obtain ⟨u, hu, rfl⟩ := map_store_eq_some h
      obtain ⟨_, rfl⟩ := store_spec hu
      exact ⟨rfl, rfl⟩
    · obtain ⟨u, hu, rfl⟩ := map_store_eq_some h
      obtain ⟨_, rfl⟩ := store_spec hu
      exact finishData_registry _

end RPC
